import Mathlib

/-!
Shallow embedding of the Claw Street Bets trade execution and risk engine
(`lib/trade-engine.ts`, no-margin variant) together with the portfolio
metrics calculator (`lib/trading.ts`) and the order validator.

Money and quantities are Prisma.Decimal values in the source; they are
modelled as exact rationals (`ℚ`).  JavaScript `number` values that can be
`NaN` or infinite appear only in the raw order request, and are modelled by
the dedicated `JsNum` type whose comparison with zero follows IEEE
semantics.  Database rows live in an `EngineState` record; the Prisma
interactive transaction is modelled by `executeTrade`, which returns the
unchanged input state whenever the transaction body ends in an error.
-/

/-- JavaScript `number` as seen by the validator: finite values are exact
rationals, plus the three non-finite values. -/
inductive JsNum where
  | nan : JsNum
  | posInf : JsNum
  | negInf : JsNum
  | finite (q : ℚ) : JsNum
deriving Repr, DecidableEq

/-- The JS test `v <= 0`: false for `NaN` and `+Infinity`, true for
`-Infinity`, and the usual order on finite values. -/
def JsNum.leZero : JsNum → Bool
  | .nan => false
  | .posInf => false
  | .negInf => true
  | .finite q => q ≤ 0

/-- `Number.isFinite` on a `JsNum`. -/
def JsNum.isFinite : JsNum → Bool
  | .finite _ => true
  | _ => false

/-- `v > 0` on a `JsNum` (IEEE: `NaN > 0` is false, `+Infinity > 0` true). -/
def JsNum.gtZero : JsNum → Bool
  | .nan => false
  | .posInf => true
  | .negInf => false
  | .finite q => 0 < q

/-- Trade side (`TradeSide` in the Prisma schema). -/
inductive Side where
  | buy : Side
  | sell : Side
deriving Repr, DecidableEq

/-- `SUPPORTED_COINS` from `lib/market.ts`. -/
def SUPPORTED_COINS : List String :=
  ["bitcoin", "ethereum", "solana", "avalanche-2", "dogecoin", "shiba-inu", "ripple"]

/-- `TRADE_COOLDOWN_MS` (60 s, in milliseconds). -/
def TRADE_COOLDOWN_MS : Int := 60000

/-- `MAX_GROSS_EXPOSURE = new Prisma.Decimal(1)`. -/
def MAX_GROSS_EXPOSURE : ℚ := 1

/-- `MAINTENANCE_MARGIN = new Prisma.Decimal(0.25)`. -/
def MAINTENANCE_MARGIN : ℚ := 1 / 4

/-- The raw `TradeRequest` body: every field optional, sizes are raw JS
numbers. -/
structure TradeRequest where
  coinId : Option String
  side : Option String
  usdNotional : Option JsNum
  qty : Option JsNum
deriving Repr, DecidableEq

/-- Structured error corresponding to each `throw new TradeExecutionError`
site (and the plain `Error` of `getCoinPriceOrThrow`). -/
inductive TradeErr where
  | unsupportedCoinId
  | invalidSide
  | invalidOrderSize
  | invalidUsdNotional
  | invalidQty
  | marketUnavailable
  | agentNotFound
  | bankruptForbidden
  | cooldownActive (waitSeconds : Int)
  | portfolioMissing
  | missingPrice (coinId : String)
  | invalidSize
  | insufficientCash
  | nonPositiveEquity
  | exposureCap
deriving Repr, DecidableEq

/-- Canonical validated order as consumed by `executeTrade` (the validator's
output with its `Prisma.Decimal` fields). -/
structure CanonOrder where
  coinId : String
  side : Side
  usdNotional : Option ℚ
  qty : Option ℚ
deriving Repr, DecidableEq

/-- A `Position` row. -/
structure Position where
  coinId : String
  qty : ℚ
  avgEntryUsd : ℚ
deriving Repr, DecidableEq

/-- A `Trade` row (append-only). -/
structure Trade where
  coinId : String
  side : Side
  qty : ℚ
  priceUsd : ℚ
  notionalUsd : ℚ
  createdAt : Int
deriving Repr, DecidableEq

/-- An `Activity` row, with the numeric payload the engine records. -/
inductive Activity where
  | trade (coinId : String) (side : Side) (qty priceUsd notionalUsd : ℚ)
  | liquidation (equityAfterLiquidation : ℚ)
deriving Repr, DecidableEq

/-- The `Agent` fields the engine reads or writes. -/
structure AgentRec where
  bankrupt : Bool
  lastActAt : Option Int
deriving Repr, DecidableEq

/-- The `Portfolio` row. -/
structure Portfolio where
  cashUsd : ℚ
  borrowedUsd : ℚ
deriving Repr, DecidableEq

/-- One agent's slice of the database, the unit of atomicity of the
transaction. -/
structure EngineState where
  agent : Option AgentRec
  portfolio : Option Portfolio
  positions : List Position
  trades : List Trade
  activities : List Activity
deriving Repr, DecidableEq

/-- The price snapshot (`buildPriceMap` output): coin id to unit price. -/
def PriceMap : Type := String → Option ℚ

/-- `getCoinPriceOrThrow` from `lib/trading.ts`: the price must be present,
finite and positive (a missing entry and a non-positive entry fail alike). -/
def getCoinPriceOrThrow (coinId : String) (prices : PriceMap) : Except TradeErr ℚ :=
  match prices coinId with
  | some p => if 0 < p then .ok p else .error (.missingPrice coinId)
  | none => .error (.missingPrice coinId)

/-- `computePortfolioMetrics` result record. -/
structure Metrics where
  equity : ℚ
  marketValue : ℚ
  positionNotional : ℚ
  unrealizedPnl : ℚ
  maintenanceRatio : Option ℚ
deriving Repr, DecidableEq

/-- The position loop of `computePortfolioMetrics`: accumulates
(marketValue, positionNotional, unrealizedPnl), failing on the first
position whose price is missing or non-positive. -/
def sumPositionMetrics (positions : List Position) (prices : PriceMap) :
    Except TradeErr (ℚ × ℚ × ℚ) :=
  match positions with
  | [] => .ok (0, 0, 0)
  | p :: rest =>
      match getCoinPriceOrThrow p.coinId prices with
      | .error e => .error e
      | .ok priceUsd =>
          match sumPositionMetrics rest prices with
          | .error e => .error e
          | .ok (mv, pn, upnl) =>
              .ok (mv + p.qty * priceUsd, pn + |p.qty| * priceUsd,
                upnl + (priceUsd - p.avgEntryUsd) * p.qty)

/-- `computePortfolioMetrics` from `lib/trading.ts`. -/
def computePortfolioMetrics (cashUsd borrowedUsd : ℚ) (positions : List Position)
    (prices : PriceMap) : Except TradeErr Metrics :=
  match sumPositionMetrics positions prices with
  | .error e => .error e
  | .ok (marketValue, positionNotional, unrealizedPnl) =>
      let equity := cashUsd - borrowedUsd + marketValue
      let maintenanceRatio :=
        if 0 < positionNotional then some (equity / positionNotional) else none
      .ok ⟨equity, marketValue, positionNotional, unrealizedPnl, maintenanceRatio⟩

/-- `sweepBorrowedBalance` from `lib/trade-engine.ts`. -/
def sweepBorrowedBalance (cashUsd borrowedUsd : ℚ) : ℚ × ℚ :=
  if cashUsd ≤ 0 ∨ borrowedUsd ≤ 0 then
    (cashUsd, borrowedUsd)
  else
    let repay := min cashUsd borrowedUsd
    (cashUsd - repay, borrowedUsd - repay)

/-- JS `String.prototype.trim`: strip leading and trailing whitespace. -/
def jsTrim (s : String) : String :=
  String.mk (((s.toList.dropWhile Char.isWhitespace).reverse.dropWhile
    Char.isWhitespace).reverse)

/-- `validateTradeRequest` from `lib/trade-engine.ts`.  `typeof v ===
"number"` is presence of the field (also for `NaN`); the guards test
`v <= 0` with JS semantics. -/
def validateTradeRequest (body : TradeRequest) : Except TradeErr CanonOrder :=
  let coinId := (body.coinId.map jsTrim).getD ""
  let hasUsdNotional := body.usdNotional.isSome
  let hasQty := body.qty.isSome
  if coinId = "" ∨ ¬ SUPPORTED_COINS.contains coinId then
    .error .unsupportedCoinId
  else if body.side ≠ some "BUY" ∧ body.side ≠ some "SELL" then
    .error .invalidSide
  else if hasUsdNotional = hasQty then
    .error .invalidOrderSize
  else if hasUsdNotional ∧ ((body.usdNotional.getD .nan).leZero = true) then
    .error .invalidUsdNotional
  else if hasQty ∧ ((body.qty.getD .nan).leZero = true) then
    .error .invalidQty
  else
    .ok
      { coinId := coinId
        side := if body.side = some "BUY" then .buy else .sell
        usdNotional := body.usdNotional.bind fun v =>
          match v with
          | .finite q => some q
          | _ => none
        qty := body.qty.bind fun v =>
          match v with
          | .finite q => some q
          | _ => none }

/-- Most recent trade timestamp of an agent
(`findFirst orderBy createdAt desc`). -/
def latestTradeCreatedAt (trades : List Trade) : Option Int :=
  trades.foldl (fun acc t =>
    match acc with
    | none => some t.createdAt
    | some m => some (max m t.createdAt)) none

/-- `Math.ceil(a / 1000)` on an integer number of milliseconds. -/
def ceilDivThousand (a : Int) : Int :=
  (a + 999).ediv 1000

/-- `isTradeCooldownActive` from `lib/trade-engine.ts` (over the agent's
trade rows): returns `(active, waitSeconds)`. -/
def isTradeCooldownActive (trades : List Trade) (at_ : Int) : Bool × Int :=
  match latestTradeCreatedAt trades with
  | none => (false, 0)
  | some t =>
      let elapsedMs := at_ - t
      if elapsedMs ≥ TRADE_COOLDOWN_MS then (false, 0)
      else (true, ceilDivThousand (TRADE_COOLDOWN_MS - elapsedMs))

/-- Lookup of the agent's position row for one coin (`byCoin.get`).  The
database enforces one `Position` row per `(agent, coin)` pair, so the row
list is used directly as the `byCoin` map. -/
def findPos (ps : List Position) (coinId : String) : Option Position :=
  ps.find? (fun p => p.coinId = coinId)

/-- `byCoin.set coinId p`: replace the existing row for the coin, else
append a new row (JS `Map` keeps insertion order). -/
def upsertPos (ps : List Position) (p : Position) : List Position :=
  if ps.any (fun q => q.coinId = p.coinId) then
    ps.map (fun q => if q.coinId = p.coinId then p else q)
  else
    ps ++ [p]

/-- `byCoin.delete coinId`. -/
def removePos (ps : List Position) (coinId : String) : List Position :=
  ps.filter (fun q => ¬ q.coinId = coinId)

/-- The BUY branch of the position update in `executeTrade`. -/
def applyBuy (ps : List Position) (coinId : String) (orderQty priceUsd : ℚ) :
    List Position :=
  let existing := findPos ps coinId
  let existingQty := (existing.map Position.qty).getD 0
  let existingAbsQty := |existingQty|
  let nextQty := existingQty + orderQty
  if nextQty = 0 then
    removePos ps coinId
  else
    let nextAvgEntry :=
      match existing with
      | some ex =>
          if 0 < existingQty then
            (ex.avgEntryUsd * existingAbsQty + priceUsd * orderQty) / |nextQty|
          else if existingQty < 0 then
            (if nextQty < 0 then ex.avgEntryUsd
             else if 0 < nextQty then priceUsd
             else priceUsd)
          else priceUsd
      | none => priceUsd
    upsertPos ps ⟨coinId, nextQty, nextAvgEntry⟩

/-- The SELL branch of the position update in `executeTrade`. -/
def applySell (ps : List Position) (coinId : String) (orderQty priceUsd : ℚ) :
    List Position :=
  let existing := findPos ps coinId
  let existingQty := (existing.map Position.qty).getD 0
  let existingAbsQty := |existingQty|
  let nextQty := existingQty - orderQty
  if nextQty = 0 then
    removePos ps coinId
  else
    let nextAvgEntry :=
      match existing with
      | some ex =>
          if existingQty < 0 then
            (ex.avgEntryUsd * existingAbsQty + priceUsd * orderQty) / |nextQty|
          else if 0 < existingQty then
            (if 0 < nextQty then ex.avgEntryUsd
             else if nextQty < 0 then priceUsd
             else priceUsd)
          else priceUsd
      | none => priceUsd
    upsertPos ps ⟨coinId, nextQty, nextAvgEntry⟩

/-- Everything `executeTrade` computes before the two risk gates: loads,
cooldown, fill-quantity resolution, pre-sweep, pre-trade metrics, the fill
itself, post-sweep and post-trade metrics. -/
structure FillCtx where
  agent : AgentRec
  priceUsd : ℚ
  orderQty : ℚ
  notionalUsd : ℚ
  cashUsd : ℚ
  borrowedUsd : ℚ
  projectedPositions : List Position
  currentMetrics : Metrics
  projectedMetrics : Metrics
deriving Repr, DecidableEq

/-- `orderQty = input.qty ?? input.usdNotional / priceUsd` (stage 4). -/
def resolveOrderQty (input : CanonOrder) (priceUsd : ℚ) : ℚ :=
  match input.qty with
  | some q => q
  | none => (input.usdNotional.getD 0) / priceUsd

/-- The BUY arm of the fill (cash check, cash debit, position update,
post-sweep, post-trade metrics). -/
def buyFill (st : EngineState) (prices : PriceMap) (input : CanonOrder)
    (agent : AgentRec) (priceUsd orderQty notionalUsd cash1 borrowed1 : ℚ)
    (currentMetrics : Metrics) : Except TradeErr FillCtx :=
  if cash1 < notionalUsd then .error .insufficientCash
  else
    match computePortfolioMetrics
        (sweepBorrowedBalance (cash1 - notionalUsd) borrowed1).1
        (sweepBorrowedBalance (cash1 - notionalUsd) borrowed1).2
        (applyBuy st.positions input.coinId orderQty priceUsd) prices with
    | .error e => .error e
    | .ok projectedMetrics =>
        .ok ⟨agent, priceUsd, orderQty, notionalUsd,
          (sweepBorrowedBalance (cash1 - notionalUsd) borrowed1).1,
          (sweepBorrowedBalance (cash1 - notionalUsd) borrowed1).2,
          applyBuy st.positions input.coinId orderQty priceUsd,
          currentMetrics, projectedMetrics⟩

/-- The SELL arm of the fill (cash credit, position update, post-sweep,
post-trade metrics). -/
def sellFill (st : EngineState) (prices : PriceMap) (input : CanonOrder)
    (agent : AgentRec) (priceUsd orderQty notionalUsd cash1 borrowed1 : ℚ)
    (currentMetrics : Metrics) : Except TradeErr FillCtx :=
  match computePortfolioMetrics
      (sweepBorrowedBalance (cash1 + notionalUsd) borrowed1).1
      (sweepBorrowedBalance (cash1 + notionalUsd) borrowed1).2
      (applySell st.positions input.coinId orderQty priceUsd) prices with
  | .error e => .error e
  | .ok projectedMetrics =>
      .ok ⟨agent, priceUsd, orderQty, notionalUsd,
        (sweepBorrowedBalance (cash1 + notionalUsd) borrowed1).1,
        (sweepBorrowedBalance (cash1 + notionalUsd) borrowed1).2,
        applySell st.positions input.coinId orderQty priceUsd,
        currentMetrics, projectedMetrics⟩

/-- Fill-quantity resolution, pre-trade sweep and metrics, the fill itself,
post-trade sweep and metrics (stages 4–9 of the transaction body). -/
def fillPhase (st : EngineState) (prices : PriceMap) (input : CanonOrder)
    (agent : AgentRec) (portfolio : Portfolio) : Except TradeErr FillCtx :=
  match getCoinPriceOrThrow input.coinId prices with
  | .error e => .error e
  | .ok priceUsd =>
    if ¬ 0 < resolveOrderQty input priceUsd then .error .invalidSize
    else
      match computePortfolioMetrics
          (sweepBorrowedBalance portfolio.cashUsd portfolio.borrowedUsd).1
          (sweepBorrowedBalance portfolio.cashUsd portfolio.borrowedUsd).2
          st.positions prices with
      | .error e => .error e
      | .ok currentMetrics =>
        match input.side with
        | .buy =>
            buyFill st prices input agent priceUsd (resolveOrderQty input priceUsd)
              (resolveOrderQty input priceUsd * priceUsd)
              (sweepBorrowedBalance portfolio.cashUsd portfolio.borrowedUsd).1
              (sweepBorrowedBalance portfolio.cashUsd portfolio.borrowedUsd).2
              currentMetrics
        | .sell =>
            sellFill st prices input agent priceUsd (resolveOrderQty input priceUsd)
              (resolveOrderQty input priceUsd * priceUsd)
              (sweepBorrowedBalance portfolio.cashUsd portfolio.borrowedUsd).1
              (sweepBorrowedBalance portfolio.cashUsd portfolio.borrowedUsd).2
              currentMetrics

/-- Stages 1–9 of the transaction body of `executeTrade` (everything up to
but excluding the solvency gate): agent load, bankrupt guard, cooldown,
portfolio load, then `fillPhase`. -/
def loadAndFill (st : EngineState) (prices : PriceMap) (input : CanonOrder)
    (now : Int) : Except TradeErr FillCtx :=
  match st.agent with
  | none => .error .agentNotFound
  | some agent =>
    if agent.bankrupt then .error .bankruptForbidden
    else
      match latestTradeCreatedAt st.trades with
      | some t =>
          if now - t < TRADE_COOLDOWN_MS then
            .error (.cooldownActive (ceilDivThousand (TRADE_COOLDOWN_MS - (now - t))))
          else
            match st.portfolio with
            | none => .error .portfolioMissing
            | some portfolio => fillPhase st prices input agent portfolio
      | none =>
          match st.portfolio with
          | none => .error .portfolioMissing
          | some portfolio => fillPhase st prices input agent portfolio

/-- The liquidation loop: `liquidationProceeds = Σ qty × price` over the
held positions. -/
def sumProceeds (positions : List Position) (prices : PriceMap) : Except TradeErr ℚ :=
  match positions with
  | [] => .ok 0
  | p :: rest =>
      match getCoinPriceOrThrow p.coinId prices with
      | .error e => .error e
      | .ok coinPrice =>
          match sumProceeds rest prices with
          | .error e => .error e
          | .ok s => .ok (p.qty * coinPrice + s)

/-- The execution result returned by `executeTrade`. -/
structure TradeResult where
  coinId : String
  side : Side
  qty : ℚ
  priceUsd : ℚ
  notionalUsd : ℚ
  cashUsd : ℚ
  borrowedUsd : ℚ
  equity : ℚ
  unrealizedPnl : ℚ
  positionNotional : ℚ
  maintenanceRatio : Option ℚ
  liquidationTriggered : Bool
  bankrupt : Bool
deriving Repr, DecidableEq

/-- Final portfolio/agent updates, final metrics and the return value. -/
def finishCommit (s : EngineState) (prices : PriceMap) (input : CanonOrder)
    (now : Int) (ctx : FillCtx) (finalCashUsd finalBorrowedUsd : ℚ)
    (finalPositions : List Position) (liquidationTriggered bankrupt : Bool) :
    Except TradeErr (EngineState × TradeResult) :=
  match computePortfolioMetrics finalCashUsd finalBorrowedUsd finalPositions prices with
  | .error e => .error e
  | .ok finalMetrics =>
      .ok ({ s with
          portfolio := some ⟨finalCashUsd, finalBorrowedUsd⟩
          agent := some ⟨bankrupt, some now⟩ },
        ⟨input.coinId, input.side, ctx.orderQty, ctx.priceUsd, ctx.notionalUsd,
          finalCashUsd, finalBorrowedUsd, finalMetrics.equity, finalMetrics.unrealizedPnl,
          finalMetrics.positionNotional, finalMetrics.maintenanceRatio,
          liquidationTriggered, bankrupt⟩)

/-- `maintenanceRatio !== null && maintenanceRatio < MAINTENANCE_MARGIN`. -/
def maintenanceRatioBelow (m : Metrics) : Bool :=
  match m.maintenanceRatio with
  | some r => decide (r < MAINTENANCE_MARGIN)
  | none => false

/-- Stage 12 of the transaction body: the state after the position upsert or
delete, the `Trade` insert and the `TRADE` activity insert. -/
def afterPersist (st : EngineState) (input : CanonOrder) (now : Int) (ctx : FillCtx) :
    EngineState :=
  { st with
    positions := ctx.projectedPositions
    trades := st.trades ++
      [⟨input.coinId, input.side, ctx.orderQty, ctx.priceUsd, ctx.notionalUsd, now⟩]
    activities := st.activities ++
      [Activity.trade input.coinId input.side ctx.orderQty ctx.priceUsd ctx.notionalUsd] }

/-- Stages 12–14 of the transaction body: persistence of the position,
trade and activity rows, the liquidation check, and the final writes. -/
def commitPhase (st : EngineState) (prices : PriceMap) (input : CanonOrder)
    (now : Int) (ctx : FillCtx) : Except TradeErr (EngineState × TradeResult) :=
  if 0 < ctx.projectedMetrics.positionNotional ∧
      maintenanceRatioBelow ctx.projectedMetrics = true then
    match sumProceeds ctx.projectedPositions prices with
    | .error e => .error e
    | .ok liquidationProceeds =>
        finishCommit
          { afterPersist st input now ctx with
            positions := []
            activities := (afterPersist st input now ctx).activities ++
              [Activity.liquidation
                ((sweepBorrowedBalance (ctx.cashUsd + liquidationProceeds) ctx.borrowedUsd).1 -
                 (sweepBorrowedBalance (ctx.cashUsd + liquidationProceeds) ctx.borrowedUsd).2)] }
          prices input now ctx
          (sweepBorrowedBalance (ctx.cashUsd + liquidationProceeds) ctx.borrowedUsd).1
          (sweepBorrowedBalance (ctx.cashUsd + liquidationProceeds) ctx.borrowedUsd).2
          [] true
          (decide
            ((sweepBorrowedBalance (ctx.cashUsd + liquidationProceeds) ctx.borrowedUsd).1 -
             (sweepBorrowedBalance (ctx.cashUsd + liquidationProceeds) ctx.borrowedUsd).2 ≤ 0))
  else
    finishCommit (afterPersist st input now ctx) prices input now ctx
      ctx.cashUsd ctx.borrowedUsd ctx.projectedPositions false ctx.agent.bankrupt

/-- The full transaction body of `executeTrade`: load/fill, the two risk
gates, then persistence and liquidation. -/
def executeTradeBody (st : EngineState) (prices : PriceMap) (input : CanonOrder)
    (now : Int) : Except TradeErr (EngineState × TradeResult) :=
  match loadAndFill st prices input now with
  | .error e => .error e
  | .ok ctx =>
    if ¬ 0 < ctx.projectedMetrics.equity then .error .nonPositiveEquity
    else if ctx.projectedMetrics.equity * MAX_GROSS_EXPOSURE <
          ctx.projectedMetrics.positionNotional ∧
        ¬ ctx.projectedMetrics.positionNotional < ctx.currentMetrics.positionNotional then
      .error .exposureCap
    else commitPhase st prices input now ctx

/-- `prisma.$transaction`: a body that throws rolls every write back,
leaving the stored state untouched; a body that returns commits its final
state. -/
def runTransaction (st : EngineState)
    (body : Except TradeErr (EngineState × TradeResult)) :
    EngineState × Except TradeErr TradeResult :=
  match body with
  | .ok (s, r) => (s, .ok r)
  | .error e => (st, .error e)

/-- `executeTrade`: the market snapshot is fetched first (`500` when the
feed is unavailable), then the transaction body runs inside
`runTransaction`. -/
def executeTrade (st : EngineState) (market : Option PriceMap) (input : CanonOrder)
    (now : Int) : EngineState × Except TradeErr TradeResult :=
  match market with
  | none => (st, .error .marketUnavailable)
  | some prices => runTransaction st (executeTradeBody st prices input now)

/-! ### Helper lemmas -/

theorem sweep_diff (c b : ℚ) :
    (sweepBorrowedBalance c b).1 - (sweepBorrowedBalance c b).2 = c - b := by
  unfold sweepBorrowedBalance
  split
  · rfl
  · show (c - min c b) - (b - min c b) = c - b
    ring

theorem sweep_snd_nonneg (c b : ℚ) (hb : 0 ≤ b) : 0 ≤ (sweepBorrowedBalance c b).2 := by
  unfold sweepBorrowedBalance
  split
  · exact hb
  · show 0 ≤ b - min c b
    have : min c b ≤ b := min_le_right c b
    linarith

theorem sweep_of_nonpos_borrowed (c b : ℚ) (hb : b ≤ 0) :
    sweepBorrowedBalance c b = (c, b) := by
  unfold sweepBorrowedBalance
  rw [if_pos (Or.inr hb)]

theorem sweep_snd_pos_fst_eq_zero (c b : ℚ) (hinv : 0 < b → c = 0)
    (h : 0 < (sweepBorrowedBalance c b).2) : (sweepBorrowedBalance c b).1 = 0 := by
  unfold sweepBorrowedBalance at h ⊢
  split at h
  · rename_i hno
    rw [if_pos hno]
    rcases hno with hc | hbz
    · have hb : 0 < b := h
      exact hinv hb
    · have hb : 0 < b := h
      linarith
  · rename_i hno
    push_neg at hno
    have := hinv hno.2
    linarith [hno.1]

theorem sweep_snd_pos_fst_nonpos (c b : ℚ) (h : 0 < (sweepBorrowedBalance c b).2) :
    (sweepBorrowedBalance c b).1 ≤ 0 := by
  unfold sweepBorrowedBalance at h ⊢
  split at h
  · rename_i hno
    rw [if_pos hno]
    rcases hno with hc | hbz
    · exact hc
    · have hb : 0 < b := h
      linarith
  · rename_i hno
    rw [if_neg hno]
    push_neg at hno
    show c - min c b ≤ 0
    have hsnd : (0:ℚ) < b - min c b := h
    have hmin : min c b = c ∨ min c b = b := min_choice c b
    rcases hmin with hm | hm
    · rw [hm]; linarith
    · exfalso
      rw [hm] at hsnd
      linarith

theorem sweep_invariant (c b : ℚ) (hb : 0 ≤ b) (hc : 0 < b → 0 ≤ c) :
    (0 < (sweepBorrowedBalance c b).1 → (sweepBorrowedBalance c b).2 = 0) ∧
    (0 < (sweepBorrowedBalance c b).2 → (sweepBorrowedBalance c b).1 = 0) := by
  unfold sweepBorrowedBalance
  split
  · rename_i hno
    constructor
    · intro h1
      rcases hno with hcz | hbz
      · exact absurd h1 (not_lt.mpr hcz)
      · exact le_antisymm hbz hb
    · intro h2
      exact le_antisymm (by rcases hno with hcz | hbz
                            · exact hcz
                            · linarith) (hc h2)
  · rename_i hno
    push_neg at hno
    constructor
    · intro h1
      have h1' : min c b < c := by
        have : (0:ℚ) < c - min c b := h1
        linarith
      have : min c b = b := by
        rcases min_choice c b with hm | hm
        · rw [hm] at h1'; linarith
        · exact hm
      show b - min c b = 0
      rw [this]; ring
    · intro h2
      have h2' : min c b < b := by
        have : (0:ℚ) < b - min c b := h2
        linarith
      have : min c b = c := by
        rcases min_choice c b with hm | hm
        · exact hm
        · rw [hm] at h2'; linarith
      show c - min c b = 0
      rw [this]; ring

theorem getCoinPriceOrThrow_ok_pos {coinId : String} {prices : PriceMap} {p : ℚ}
    (h : getCoinPriceOrThrow coinId prices = .ok p) : 0 < p := by
  unfold getCoinPriceOrThrow at h
  split at h
  · rename_i q hq
    split at h
    · rename_i hpos
      cases h
      exact hpos
    · cases h
  · cases h

theorem computePortfolioMetrics_ok_inv {c b : ℚ} {ps : List Position} {prices : PriceMap}
    {m : Metrics} (h : computePortfolioMetrics c b ps prices = .ok m) :
    ∃ mv pn u, sumPositionMetrics ps prices = .ok (mv, pn, u) ∧
      m.equity = c - b + mv ∧ m.marketValue = mv ∧ m.positionNotional = pn ∧
      m.unrealizedPnl = u ∧
      m.maintenanceRatio = (if 0 < pn then some ((c - b + mv) / pn) else none) := by
  unfold computePortfolioMetrics at h
  split at h
  · cases h
  · rename_i a1 a2 a3 htrip
    cases h
    exact ⟨a1, a2, a3, htrip, rfl, rfl, rfl, rfl, rfl⟩

theorem sumProceeds_of_sumPositionMetrics {ps : List Position} {prices : PriceMap}
    {mv pn u : ℚ} (h : sumPositionMetrics ps prices = .ok (mv, pn, u)) :
    sumProceeds ps prices = .ok mv := by
  induction ps generalizing mv pn u with
  | nil =>
      unfold sumPositionMetrics at h
      cases h
      rfl
  | cons p rest ih =>
      unfold sumPositionMetrics at h
      split at h
      · cases h
      · rename_i price hprice
        split at h
        · cases h
        · rename_i trip htrip
          obtain ⟨mv', pn', u'⟩ := trip
          cases h
          unfold sumProceeds
          rw [hprice, ih htrip]
          rw [add_comm]

theorem computePortfolioMetrics_nil (c b : ℚ) (prices : PriceMap) :
    computePortfolioMetrics c b [] prices = .ok ⟨c - b + 0, 0, 0, 0, none⟩ := by
  unfold computePortfolioMetrics sumPositionMetrics
  simp

theorem buyFill_ok_inv {st : EngineState} {prices : PriceMap} {input : CanonOrder}
    {agent : AgentRec} {priceUsd orderQty notionalUsd cash1 borrowed1 : ℚ}
    {currentMetrics : Metrics} {ctx : FillCtx}
    (h : buyFill st prices input agent priceUsd orderQty notionalUsd cash1 borrowed1
      currentMetrics = .ok ctx) :
    ¬ cash1 < notionalUsd ∧
    ctx.agent = agent ∧ ctx.priceUsd = priceUsd ∧ ctx.orderQty = orderQty ∧
    ctx.notionalUsd = notionalUsd ∧ ctx.currentMetrics = currentMetrics ∧
    ctx.projectedPositions = applyBuy st.positions input.coinId orderQty priceUsd ∧
    (ctx.cashUsd, ctx.borrowedUsd) = sweepBorrowedBalance (cash1 - notionalUsd) borrowed1 ∧
    computePortfolioMetrics ctx.cashUsd ctx.borrowedUsd ctx.projectedPositions prices
      = .ok ctx.projectedMetrics := by
  unfold buyFill at h
  split at h
  · cases h
  · rename_i hcash
    split at h
    · cases h
    · rename_i pm hpm
      cases h
      exact ⟨hcash, rfl, rfl, rfl, rfl, rfl, rfl, Prod.mk.eta, hpm⟩

theorem sellFill_ok_inv {st : EngineState} {prices : PriceMap} {input : CanonOrder}
    {agent : AgentRec} {priceUsd orderQty notionalUsd cash1 borrowed1 : ℚ}
    {currentMetrics : Metrics} {ctx : FillCtx}
    (h : sellFill st prices input agent priceUsd orderQty notionalUsd cash1 borrowed1
      currentMetrics = .ok ctx) :
    ctx.agent = agent ∧ ctx.priceUsd = priceUsd ∧ ctx.orderQty = orderQty ∧
    ctx.notionalUsd = notionalUsd ∧ ctx.currentMetrics = currentMetrics ∧
    ctx.projectedPositions = applySell st.positions input.coinId orderQty priceUsd ∧
    (ctx.cashUsd, ctx.borrowedUsd) = sweepBorrowedBalance (cash1 + notionalUsd) borrowed1 ∧
    computePortfolioMetrics ctx.cashUsd ctx.borrowedUsd ctx.projectedPositions prices
      = .ok ctx.projectedMetrics := by
  unfold sellFill at h
  split at h
  · cases h
  · rename_i pm hpm
    cases h
    exact ⟨rfl, rfl, rfl, rfl, rfl, rfl, Prod.mk.eta, hpm⟩

theorem fillPhase_ok_inv {st : EngineState} {prices : PriceMap} {input : CanonOrder}
    {agent : AgentRec} {portfolio : Portfolio} {ctx : FillCtx}
    (h : fillPhase st prices input agent portfolio = .ok ctx) :
    ctx.agent = agent ∧
    getCoinPriceOrThrow input.coinId prices = .ok ctx.priceUsd ∧
    0 < ctx.orderQty ∧
    ctx.notionalUsd = ctx.orderQty * ctx.priceUsd ∧
    computePortfolioMetrics
      (sweepBorrowedBalance portfolio.cashUsd portfolio.borrowedUsd).1
      (sweepBorrowedBalance portfolio.cashUsd portfolio.borrowedUsd).2
      st.positions prices = .ok ctx.currentMetrics ∧
    computePortfolioMetrics ctx.cashUsd ctx.borrowedUsd ctx.projectedPositions prices
      = .ok ctx.projectedMetrics ∧
    ((input.side = Side.buy ∧
        ¬ (sweepBorrowedBalance portfolio.cashUsd portfolio.borrowedUsd).1 < ctx.notionalUsd ∧
        ctx.projectedPositions = applyBuy st.positions input.coinId ctx.orderQty ctx.priceUsd ∧
        (ctx.cashUsd, ctx.borrowedUsd) = sweepBorrowedBalance
          ((sweepBorrowedBalance portfolio.cashUsd portfolio.borrowedUsd).1 - ctx.notionalUsd)
          (sweepBorrowedBalance portfolio.cashUsd portfolio.borrowedUsd).2) ∨
     (input.side = Side.sell ∧
        ctx.projectedPositions = applySell st.positions input.coinId ctx.orderQty ctx.priceUsd ∧
        (ctx.cashUsd, ctx.borrowedUsd) = sweepBorrowedBalance
          ((sweepBorrowedBalance portfolio.cashUsd portfolio.borrowedUsd).1 + ctx.notionalUsd)
          (sweepBorrowedBalance portfolio.cashUsd portfolio.borrowedUsd).2)) := by
  unfold fillPhase at h
  split at h
  · cases h
  · rename_i priceUsd hprice
    split at h
    · cases h
    · rename_i hqty
      rw [not_not] at hqty
      split at h
      · cases h
      · rename_i cm hcm
        split at h
        · rename_i hside
          obtain ⟨hcash, hag, hpu, hoq, hno, hcmeq, hpp, hsw, hpm⟩ := buyFill_ok_inv h
          refine ⟨hag, ?_, ?_, ?_, ?_, hpm, Or.inl ⟨hside, ?_, ?_, ?_⟩⟩
          · rw [hpu]; exact hprice
          · rw [hoq]; exact hqty
          · rw [hno, hoq, hpu]
          · rw [hcmeq]; exact hcm
          · rw [hno]; exact hcash
          · rw [hpp, hoq, hpu]
          · rw [hsw, hno]
        · rename_i hside
          obtain ⟨hag, hpu, hoq, hno, hcmeq, hpp, hsw, hpm⟩ := sellFill_ok_inv h
          refine ⟨hag, ?_, ?_, ?_, ?_, hpm, Or.inr ⟨hside, ?_, ?_⟩⟩
          · rw [hpu]; exact hprice
          · rw [hoq]; exact hqty
          · rw [hno, hoq, hpu]
          · rw [hcmeq]; exact hcm
          · rw [hpp, hoq, hpu]
          · rw [hsw, hno]

theorem loadAndFill_ok_inv {st : EngineState} {prices : PriceMap} {input : CanonOrder}
    {now : Int} {ctx : FillCtx}
    (h : loadAndFill st prices input now = .ok ctx) :
    ∃ agent portfolio,
      st.agent = some agent ∧ agent.bankrupt = false ∧ ctx.agent = agent ∧
      st.portfolio = some portfolio ∧
      fillPhase st prices input agent portfolio = .ok ctx := by
  unfold loadAndFill at h
  split at h
  · cases h
  · rename_i agent hagent
    split at h
    · cases h
    · rename_i hbk
      split at h
      · rename_i t htrade
        split at h
        · cases h
        · split at h
          · cases h
          · rename_i portfolio hport
            exact ⟨agent, portfolio, hagent, Bool.of_not_eq_true hbk, (fillPhase_ok_inv h).1, hport, h⟩
      · split at h
        · cases h
        · rename_i portfolio hport
          exact ⟨agent, portfolio, hagent, Bool.of_not_eq_true hbk, (fillPhase_ok_inv h).1, hport, h⟩

theorem finishCommit_ok_inv {s : EngineState} {prices : PriceMap} {input : CanonOrder}
    {now : Int} {ctx : FillCtx} {fc fb : ℚ} {fpos : List Position} {lt bk : Bool}
    {s' : EngineState} {r : TradeResult}
    (h : finishCommit s prices input now ctx fc fb fpos lt bk = .ok (s', r)) :
    s' = { s with portfolio := some ⟨fc, fb⟩, agent := some ⟨bk, some now⟩ } ∧
    r.liquidationTriggered = lt ∧ r.bankrupt = bk ∧ r.cashUsd = fc ∧ r.borrowedUsd = fb ∧
    ∃ fm, computePortfolioMetrics fc fb fpos prices = .ok fm ∧ r.equity = fm.equity := by
  unfold finishCommit at h
  split at h
  · cases h
  · rename_i fm hfm
    cases h
    exact ⟨rfl, rfl, rfl, rfl, rfl, fm, hfm, rfl⟩

theorem finishCommit_ok_of {s : EngineState} {prices : PriceMap} {input : CanonOrder}
    {now : Int} {ctx : FillCtx} {fc fb : ℚ} {fpos : List Position} {lt bk : Bool}
    {fm : Metrics} (hfm : computePortfolioMetrics fc fb fpos prices = .ok fm) :
    finishCommit s prices input now ctx fc fb fpos lt bk =
      .ok ({ s with portfolio := some ⟨fc, fb⟩, agent := some ⟨bk, some now⟩ },
        ⟨input.coinId, input.side, ctx.orderQty, ctx.priceUsd, ctx.notionalUsd, fc, fb,
          fm.equity, fm.unrealizedPnl, fm.positionNotional, fm.maintenanceRatio, lt, bk⟩) := by
  unfold finishCommit
  rw [hfm]

theorem commitPhase_ok_inv {st : EngineState} {prices : PriceMap} {input : CanonOrder}
    {now : Int} {ctx : FillCtx} {s' : EngineState} {r : TradeResult}
    (h : commitPhase st prices input now ctx = .ok (s', r)) :
    (¬ (0 < ctx.projectedMetrics.positionNotional ∧
        maintenanceRatioBelow ctx.projectedMetrics = true) ∧
      s'.portfolio = some ⟨ctx.cashUsd, ctx.borrowedUsd⟩ ∧
      s'.positions = ctx.projectedPositions ∧
      s'.agent = some ⟨r.bankrupt, some now⟩ ∧
      s'.trades = st.trades ++
        [⟨input.coinId, input.side, ctx.orderQty, ctx.priceUsd, ctx.notionalUsd, now⟩] ∧
      r.liquidationTriggered = false ∧ r.bankrupt = ctx.agent.bankrupt ∧
      ∃ fm, computePortfolioMetrics ctx.cashUsd ctx.borrowedUsd ctx.projectedPositions
          prices = .ok fm ∧ r.equity = fm.equity) ∨
    ((0 < ctx.projectedMetrics.positionNotional ∧
        maintenanceRatioBelow ctx.projectedMetrics = true) ∧
      ∃ mv, sumProceeds ctx.projectedPositions prices = .ok mv ∧
        s'.portfolio = some ⟨(sweepBorrowedBalance (ctx.cashUsd + mv) ctx.borrowedUsd).1,
          (sweepBorrowedBalance (ctx.cashUsd + mv) ctx.borrowedUsd).2⟩ ∧
        s'.positions = [] ∧
        s'.agent = some ⟨r.bankrupt, some now⟩ ∧
        s'.trades = st.trades ++
          [⟨input.coinId, input.side, ctx.orderQty, ctx.priceUsd, ctx.notionalUsd, now⟩] ∧
        r.liquidationTriggered = true ∧
        r.bankrupt = decide ((sweepBorrowedBalance (ctx.cashUsd + mv) ctx.borrowedUsd).1 -
          (sweepBorrowedBalance (ctx.cashUsd + mv) ctx.borrowedUsd).2 ≤ 0) ∧
        ∃ fm, computePortfolioMetrics
            (sweepBorrowedBalance (ctx.cashUsd + mv) ctx.borrowedUsd).1
            (sweepBorrowedBalance (ctx.cashUsd + mv) ctx.borrowedUsd).2 [] prices = .ok fm ∧
          r.equity = fm.equity) := by
  unfold commitPhase at h
  split at h
  · rename_i hliq
    right
    split at h
    · cases h
    · rename_i mv hmv
      obtain ⟨hs, hlt, hbk, hcash, hbor, fm, hfm, heq⟩ := finishCommit_ok_inv h
      refine ⟨hliq, mv, hmv, ?_, ?_, ?_, ?_, hlt, hbk, fm, hfm, heq⟩
      · rw [hs]
      · rw [hs]
      · rw [hs, hbk]
      · rw [hs]
        rfl
  · rename_i hliq
    left
    obtain ⟨hs, hlt, hbk, hcash, hbor, fm, hfm, heq⟩ := finishCommit_ok_inv h
    refine ⟨hliq, ?_, ?_, ?_, ?_, hlt, hbk, fm, hfm, heq⟩
    · rw [hs]
    · rw [hs]
      rfl
    · rw [hs, hbk]
    · rw [hs]
      rfl

theorem commitPhase_ok_of {st : EngineState} {prices : PriceMap} {input : CanonOrder}
    {now : Int} {ctx : FillCtx}
    (hproj : computePortfolioMetrics ctx.cashUsd ctx.borrowedUsd ctx.projectedPositions
      prices = .ok ctx.projectedMetrics) :
    ∃ s' r, commitPhase st prices input now ctx = .ok (s', r) := by
  obtain ⟨mv, pn, u, hsum, -⟩ := computePortfolioMetrics_ok_inv hproj
  have hproceeds := sumProceeds_of_sumPositionMetrics hsum
  unfold commitPhase
  split
  · simp only [hproceeds]
    exact ⟨_, _, finishCommit_ok_of (computePortfolioMetrics_nil _ _ _)⟩
  · exact ⟨_, _, finishCommit_ok_of hproj⟩

theorem executeTradeBody_ok_inv {st : EngineState} {prices : PriceMap}
    {input : CanonOrder} {now : Int} {s' : EngineState} {r : TradeResult}
    (h : executeTradeBody st prices input now = .ok (s', r)) :
    ∃ ctx, loadAndFill st prices input now = .ok ctx ∧
      0 < ctx.projectedMetrics.equity ∧
      ¬ (ctx.projectedMetrics.equity * MAX_GROSS_EXPOSURE <
            ctx.projectedMetrics.positionNotional ∧
          ¬ ctx.projectedMetrics.positionNotional < ctx.currentMetrics.positionNotional) ∧
      commitPhase st prices input now ctx = .ok (s', r) := by
  unfold executeTradeBody at h
  split at h
  · cases h
  · rename_i ctx hctx
    split at h
    · cases h
    · rename_i heq
      rw [not_not] at heq
      split at h
      · cases h
      · rename_i hcap
        exact ⟨ctx, hctx, heq, hcap, h⟩

theorem executeTradeBody_ok_of {st : EngineState} {prices : PriceMap}
    {input : CanonOrder} {now : Int} {ctx : FillCtx}
    (hctx : loadAndFill st prices input now = .ok ctx)
    (heq : 0 < ctx.projectedMetrics.equity)
    (hcap : ¬ (ctx.projectedMetrics.equity * MAX_GROSS_EXPOSURE <
          ctx.projectedMetrics.positionNotional ∧
        ¬ ctx.projectedMetrics.positionNotional < ctx.currentMetrics.positionNotional)) :
    executeTradeBody st prices input now = commitPhase st prices input now ctx := by
  unfold executeTradeBody
  rw [hctx]
  dsimp only
  rw [if_neg (not_not_intro heq), if_neg hcap]

theorem executeTrade_ok_inv {st : EngineState} {market : Option PriceMap}
    {input : CanonOrder} {now : Int} {s' : EngineState} {r : TradeResult}
    (h : executeTrade st market input now = (s', .ok r)) :
    ∃ prices, market = some prices ∧ executeTradeBody st prices input now = .ok (s', r) := by
  cases market with
  | none => simp [executeTrade] at h
  | some prices =>
      refine ⟨prices, rfl, ?_⟩
      simp only [executeTrade] at h
      cases hb : executeTradeBody st prices input now with
      | ok v =>
          obtain ⟨s0, r0⟩ := v
          rw [hb] at h
          simp [runTransaction] at h
          rw [h.1, h.2]
      | error e =>
          rw [hb] at h
          simp [runTransaction] at h

theorem executeTrade_eq_of_body {st : EngineState} {prices : PriceMap}
    {input : CanonOrder} {now : Int} {s' : EngineState} {r : TradeResult}
    (hb : executeTradeBody st prices input now = .ok (s', r)) :
    executeTrade st (some prices) input now = (s', .ok r) := by
  simp only [executeTrade]
  rw [hb]
  rfl

theorem executeTrade_eq_of_body_error {st : EngineState} {prices : PriceMap}
    {input : CanonOrder} {now : Int} {e : TradeErr}
    (hb : executeTradeBody st prices input now = .error e) :
    executeTrade st (some prices) input now = (st, .error e) := by
  simp only [executeTrade]
  rw [hb]
  rfl

/-! ### Claim theorems -/

/-- C10: for every pair of decimal inputs, `sweepBorrowedBalance` preserves
the difference `cashUsd − borrowedUsd`: the borrow sweep never creates or
destroys equity. -/
theorem sweepBorrowedBalance_preserves_equity (cashUsd borrowedUsd : ℚ) :
    (sweepBorrowedBalance cashUsd borrowedUsd).1 -
      (sweepBorrowedBalance cashUsd borrowedUsd).2 = cashUsd - borrowedUsd :=
  sweep_diff cashUsd borrowedUsd

/-- C1: any failure of `executeTrade` (validation, policy, not-found, or
infrastructure failure inside or before the transaction) leaves the
account, portfolio, position, trade and activity rows exactly as they were
before the call: the returned state is the input state. -/
theorem executeTrade_rollback_on_error (st : EngineState) (market : Option PriceMap)
    (input : CanonOrder) (now : Int) (e : TradeErr)
    (h : (executeTrade st market input now).2 = .error e) :
    (executeTrade st market input now).1 = st := by
  cases market with
  | none => rfl
  | some prices =>
      simp only [executeTrade] at h ⊢
      cases hb : executeTradeBody st prices input now with
      | ok v =>
          obtain ⟨s0, r0⟩ := v
          rw [hb] at h
          simp [runTransaction] at h
      | error e' => rfl

/-- C1 witness: a concrete rejected order (market feed unavailable) leaves
the concrete state untouched. -/
theorem executeTrade_rollback_on_error_witness :
    (executeTrade ⟨some ⟨false, none⟩, some ⟨10000, 0⟩, [], [], []⟩ none
        ⟨"bitcoin", Side.buy, some 5000, none⟩ 0).2 = .error .marketUnavailable ∧
    (executeTrade ⟨some ⟨false, none⟩, some ⟨10000, 0⟩, [], [], []⟩ none
        ⟨"bitcoin", Side.buy, some 5000, none⟩ 0).1 =
      ⟨some ⟨false, none⟩, some ⟨10000, 0⟩, [], [], []⟩ :=
  ⟨rfl, executeTrade_rollback_on_error _ _ _ _ .marketUnavailable rfl⟩

/-- C6: if post-trade equity is not strictly positive the order fails with
the non-positive-equity risk error before any persistence (the returned
state is the pre-call state); and conversely every committed trade reports
strictly positive equity at the snapshot prices used for the fill. -/
theorem executeTrade_solvency_gate (st : EngineState) (prices : PriceMap)
    (input : CanonOrder) (now : Int) :
    (∀ ctx, loadAndFill st prices input now = .ok ctx →
      ¬ 0 < ctx.projectedMetrics.equity →
      executeTrade st (some prices) input now = (st, .error .nonPositiveEquity)) ∧
    (∀ s' r, executeTrade st (some prices) input now = (s', .ok r) → 0 < r.equity) := by
  constructor
  · intro ctx hctx heq
    apply executeTrade_eq_of_body_error
    unfold executeTradeBody
    rw [hctx]
    dsimp only
    rw [if_pos heq]
  · intro s' r hrun
    obtain ⟨prices', hpr, hbody⟩ := executeTrade_ok_inv hrun
    injection hpr with hpr'
    subst hpr'
    obtain ⟨ctx, hlf, heq, hcap, hcommit⟩ := executeTradeBody_ok_inv hbody
    obtain ⟨agent, portfolio, ha, hbk, hag, hport, hfill⟩ := loadAndFill_ok_inv hlf
    obtain ⟨-, hpricem, hq, hno, hcm, hproj, hside⟩ := fillPhase_ok_inv hfill
    rcases commitPhase_ok_inv hcommit with
      ⟨hnl, hsport, hspos, hsag, hstr, hlt, hbkr, fm, hfm, heqr⟩ |
      ⟨hl, mv, hmv, hsport, hspos, hsag, hstr, hlt, hbkr, fm, hfm, heqr⟩
    · rw [heqr]
      rw [hproj] at hfm
      injection hfm with hfm'
      rw [← hfm']
      exact heq
    · rw [heqr]
      have hnil := computePortfolioMetrics_nil
        (sweepBorrowedBalance (ctx.cashUsd + mv) ctx.borrowedUsd).1
        (sweepBorrowedBalance (ctx.cashUsd + mv) ctx.borrowedUsd).2 prices
      rw [hfm] at hnil
      injection hnil with hfm'
      obtain ⟨mv', pn', u', hsum, hpe, -, -, -, -⟩ := computePortfolioMetrics_ok_inv hproj
      have hmv' := sumProceeds_of_sumPositionMetrics hsum
      rw [hmv] at hmv'
      injection hmv' with hmveq
      subst hmveq
      have hswdiff := sweep_diff (ctx.cashUsd + mv) ctx.borrowedUsd
      rw [hfm']
      show 0 < (sweepBorrowedBalance (ctx.cashUsd + mv) ctx.borrowedUsd).1 -
        (sweepBorrowedBalance (ctx.cashUsd + mv) ctx.borrowedUsd).2 + 0
      rw [hswdiff]
      rw [hpe] at heq
      linarith

/-- C6 witness: a concrete SELL that would extend a losing short is
rejected with the non-positive-equity error, leaving the state unchanged. -/
theorem executeTrade_solvency_gate_witness :
    executeTrade ⟨some ⟨false, none⟩, some ⟨100, 0⟩, [⟨"btc", -100, 1⟩], [], []⟩
        (some (fun s => if s = "btc" then some 2 else none))
        ⟨"btc", Side.sell, none, some 1⟩ 0 =
      (⟨some ⟨false, none⟩, some ⟨100, 0⟩, [⟨"btc", -100, 1⟩], [], []⟩,
        .error .nonPositiveEquity) :=
  (executeTrade_solvency_gate _ _ _ _).1
    ⟨⟨false, none⟩, 2, 1, 2, 102, 0, [⟨"btc", -101, 102/101⟩],
      ⟨-100, -200, 200, -100, some (-1/2)⟩, ⟨-100, -202, 202, -100, some (-50/101)⟩⟩
    (by norm_num [loadAndFill, fillPhase, sellFill, getCoinPriceOrThrow, resolveOrderQty,
      sweepBorrowedBalance, computePortfolioMetrics, sumPositionMetrics, applySell,
      findPos, upsertPos, removePos, latestTradeCreatedAt, List.find?, List.foldl])
    (by norm_num)

/-- C5: when post-trade gross notional exceeds `MAX_GROSS_EXPOSURE ×`
post-trade equity the order is rejected with the exposure-cap risk
violation unless it strictly reduces gross notional versus the pre-trade
baseline; an order that strictly reduces gross notional proceeds to a
successful commit even while over the cap. -/
theorem executeTrade_exposure_gate (st : EngineState) (prices : PriceMap)
    (input : CanonOrder) (now : Int) :
    (∀ ctx, loadAndFill st prices input now = .ok ctx →
      0 < ctx.projectedMetrics.equity →
      ctx.projectedMetrics.equity * MAX_GROSS_EXPOSURE <
        ctx.projectedMetrics.positionNotional →
      ¬ ctx.projectedMetrics.positionNotional < ctx.currentMetrics.positionNotional →
      executeTrade st (some prices) input now = (st, .error .exposureCap)) ∧
    (∀ ctx, loadAndFill st prices input now = .ok ctx →
      0 < ctx.projectedMetrics.equity →
      ctx.projectedMetrics.positionNotional < ctx.currentMetrics.positionNotional →
      ∃ s' r, executeTrade st (some prices) input now = (s', .ok r)) := by
  constructor
  · intro ctx hctx heq hover hnored
    apply executeTrade_eq_of_body_error
    unfold executeTradeBody
    rw [hctx]
    dsimp only
    rw [if_neg (not_not_intro heq), if_pos ⟨hover, hnored⟩]
  · intro ctx hctx heq hred
    obtain ⟨agent, portfolio, -, -, -, -, hfill⟩ := loadAndFill_ok_inv hctx
    obtain ⟨-, -, -, -, -, hproj, -⟩ := fillPhase_ok_inv hfill
    obtain ⟨s', r, hcp⟩ := commitPhase_ok_of hproj
    refine ⟨s', r, executeTrade_eq_of_body ?_⟩
    rw [executeTradeBody_ok_of hctx heq (fun hand => hand.2 hred)]
    exact hcp

/-- C5 witness: opening a 200-notional short against 100 equity is over the
1× cap, does not reduce exposure, and is rejected with the exposure-cap
error. -/
theorem executeTrade_exposure_gate_witness :
    executeTrade ⟨some ⟨false, none⟩, some ⟨100, 0⟩, [], [], []⟩
        (some (fun s => if s = "btc" then some 2 else none))
        ⟨"btc", Side.sell, none, some 100⟩ 0 =
      (⟨some ⟨false, none⟩, some ⟨100, 0⟩, [], [], []⟩, .error .exposureCap) :=
  (executeTrade_exposure_gate _ _ _ _).1
    ⟨⟨false, none⟩, 2, 100, 200, 300, 0, [⟨"btc", -100, 2⟩],
      ⟨100, 0, 0, 0, none⟩, ⟨100, -200, 200, 0, some (1/2)⟩⟩
    (by norm_num [loadAndFill, fillPhase, sellFill, getCoinPriceOrThrow, resolveOrderQty,
      sweepBorrowedBalance, computePortfolioMetrics, sumPositionMetrics, applySell,
      findPos, upsertPos, removePos, latestTradeCreatedAt, List.find?, List.foldl])
    (by norm_num) (by norm_num [MAX_GROSS_EXPOSURE]) (by norm_num)

/-- C2: an order that reaches the liquidation check with post-trade gross
notional `> 0` and maintenance ratio `< 0.25` still commits successfully
with `liquidationTriggered = true` rather than returning an error: every
position row is deleted, the mark-to-market proceeds of all held positions
are added to cash, the borrow sweep runs once more, and both the account's
`bankrupt` flag and the result's `bankrupt` are true iff the resulting
`cash − borrowed` is `≤ 0`. -/
theorem executeTrade_liquidation_path (st : EngineState) (prices : PriceMap)
    (input : CanonOrder) (now : Int) (ctx : FillCtx) (ratio mv : ℚ)
    (hctx : loadAndFill st prices input now = .ok ctx)
    (heq : 0 < ctx.projectedMetrics.equity)
    (hgate : ¬ (ctx.projectedMetrics.equity * MAX_GROSS_EXPOSURE <
        ctx.projectedMetrics.positionNotional ∧
      ¬ ctx.projectedMetrics.positionNotional < ctx.currentMetrics.positionNotional))
    (hpn : 0 < ctx.projectedMetrics.positionNotional)
    (hr : ctx.projectedMetrics.maintenanceRatio = some ratio)
    (hlow : ratio < MAINTENANCE_MARGIN)
    (hmv : sumProceeds ctx.projectedPositions prices = .ok mv) :
    ∃ s' res, executeTrade st (some prices) input now = (s', .ok res) ∧
      s'.positions = [] ∧
      s'.portfolio = some ⟨(sweepBorrowedBalance (ctx.cashUsd + mv) ctx.borrowedUsd).1,
        (sweepBorrowedBalance (ctx.cashUsd + mv) ctx.borrowedUsd).2⟩ ∧
      s'.agent = some ⟨res.bankrupt, some now⟩ ∧
      res.liquidationTriggered = true ∧
      (res.bankrupt = true ↔
        (sweepBorrowedBalance (ctx.cashUsd + mv) ctx.borrowedUsd).1 -
          (sweepBorrowedBalance (ctx.cashUsd + mv) ctx.borrowedUsd).2 ≤ 0) := by
  have hbelow : maintenanceRatioBelow ctx.projectedMetrics = true := by
    unfold maintenanceRatioBelow
    rw [hr]
    exact decide_eq_true hlow
  obtain ⟨agent, portfolio, -, -, -, -, hfill⟩ := loadAndFill_ok_inv hctx
  obtain ⟨-, -, -, -, -, hproj, -⟩ := fillPhase_ok_inv hfill
  obtain ⟨s', r, hcp⟩ := commitPhase_ok_of hproj
  have hrun : executeTrade st (some prices) input now = (s', .ok r) := by
    apply executeTrade_eq_of_body
    rw [executeTradeBody_ok_of hctx heq hgate]
    exact hcp
  rcases commitPhase_ok_inv hcp with
    ⟨hnl, -⟩ |
    ⟨-, mv', hmv', hsport, hspos, hsag, -, hlt, hbkr, -⟩
  · exact absurd ⟨hpn, hbelow⟩ hnl
  · rw [hmv] at hmv'
    injection hmv' with hmveq
    subst hmveq
    refine ⟨s', r, hrun, hspos, hsport, hsag, hlt, ?_⟩
    rw [hbkr]
    simp

/-- C2 witness: buying back part of an underwater short leaves the
maintenance ratio at `2/9 < 0.25`; the trade commits, triggers liquidation,
clears the position rows and does not bankrupt the account (final equity
`40 > 0`). -/
theorem executeTrade_liquidation_path_witness :
    ∃ s' res, executeTrade ⟨some ⟨false, none⟩, some ⟨240, 0⟩, [⟨"btc", -100, 1⟩], [], []⟩
        (some (fun s => if s = "btc" then some 2 else none))
        ⟨"btc", Side.buy, none, some 10⟩ 0 = (s', .ok res) ∧
      s'.positions = [] ∧
      s'.portfolio = some ⟨(sweepBorrowedBalance (220 + (-180)) 0).1,
        (sweepBorrowedBalance (220 + (-180)) 0).2⟩ ∧
      s'.agent = some ⟨res.bankrupt, some 0⟩ ∧
      res.liquidationTriggered = true ∧
      (res.bankrupt = true ↔
        (sweepBorrowedBalance (220 + (-180)) 0).1 -
          (sweepBorrowedBalance (220 + (-180)) 0).2 ≤ 0) :=
  executeTrade_liquidation_path _ _ _ _
    ⟨⟨false, none⟩, 2, 10, 20, 220, 0, [⟨"btc", -90, 1⟩],
      ⟨40, -200, 200, -100, some (1/5)⟩, ⟨40, -180, 180, -90, some (2/9)⟩⟩
    (2/9) (-180)
    (by norm_num [loadAndFill, fillPhase, buyFill, getCoinPriceOrThrow, resolveOrderQty,
      sweepBorrowedBalance, computePortfolioMetrics, sumPositionMetrics, applyBuy,
      findPos, upsertPos, removePos, latestTradeCreatedAt, List.find?, List.foldl])
    (by norm_num) (by norm_num [MAX_GROSS_EXPOSURE]) (by norm_num) (by norm_num)
    (by norm_num [MAINTENANCE_MARGIN])
    (by norm_num [sumProceeds, getCoinPriceOrThrow])

theorem getCoinPriceOrThrow_error_inv {coinId : String} {prices : PriceMap} {e : TradeErr}
    (h : getCoinPriceOrThrow coinId prices = .error e) : e = .missingPrice coinId := by
  unfold getCoinPriceOrThrow at h
  split at h
  · split at h
    · cases h
    · cases h; rfl
  · cases h; rfl

theorem sumPositionMetrics_error_inv {ps : List Position} {prices : PriceMap} {e : TradeErr}
    (h : sumPositionMetrics ps prices = .error e) : ∃ c, e = .missingPrice c := by
  induction ps with
  | nil => cases h
  | cons p rest ih =>
      unfold sumPositionMetrics at h
      split at h
      · rename_i e' he'
        cases h
        exact ⟨p.coinId, getCoinPriceOrThrow_error_inv he'⟩
      · split at h
        · rename_i e' he'
          cases h
          exact ih he'
        · cases h

theorem computePortfolioMetrics_error_inv {c b : ℚ} {ps : List Position}
    {prices : PriceMap} {e : TradeErr}
    (h : computePortfolioMetrics c b ps prices = .error e) : ∃ cid, e = .missingPrice cid := by
  unfold computePortfolioMetrics at h
  split at h
  · rename_i e' he'
    cases h
    exact sumPositionMetrics_error_inv he'
  · cases h

theorem sumProceeds_error_inv {ps : List Position} {prices : PriceMap} {e : TradeErr}
    (h : sumProceeds ps prices = .error e) : ∃ c, e = .missingPrice c := by
  induction ps with
  | nil => cases h
  | cons p rest ih =>
      unfold sumProceeds at h
      split at h
      · rename_i e' he'
        cases h
        exact ⟨p.coinId, getCoinPriceOrThrow_error_inv he'⟩
      · split at h
        · rename_i e' he'
          cases h
          exact ih he'
        · cases h

theorem buyFill_error_inv {st : EngineState} {prices : PriceMap} {input : CanonOrder}
    {agent : AgentRec} {priceUsd orderQty notionalUsd cash1 borrowed1 : ℚ}
    {currentMetrics : Metrics} {e : TradeErr}
    (h : buyFill st prices input agent priceUsd orderQty notionalUsd cash1 borrowed1
      currentMetrics = .error e) :
    e = .insufficientCash ∨ ∃ c, e = .missingPrice c := by
  unfold buyFill at h
  split at h
  · cases h; exact Or.inl rfl
  · split at h
    · rename_i e' he'
      cases h
      exact Or.inr (computePortfolioMetrics_error_inv he')
    · cases h

theorem sellFill_error_inv {st : EngineState} {prices : PriceMap} {input : CanonOrder}
    {agent : AgentRec} {priceUsd orderQty notionalUsd cash1 borrowed1 : ℚ}
    {currentMetrics : Metrics} {e : TradeErr}
    (h : sellFill st prices input agent priceUsd orderQty notionalUsd cash1 borrowed1
      currentMetrics = .error e) :
    ∃ c, e = .missingPrice c := by
  unfold sellFill at h
  split at h
  · rename_i e' he'
    cases h
    exact computePortfolioMetrics_error_inv he'
  · cases h

theorem fillPhase_error_inv {st : EngineState} {prices : PriceMap} {input : CanonOrder}
    {agent : AgentRec} {portfolio : Portfolio} {e : TradeErr}
    (h : fillPhase st prices input agent portfolio = .error e) :
    e = .invalidSize ∨ e = .insufficientCash ∨ ∃ c, e = .missingPrice c := by
  unfold fillPhase at h
  split at h
  · rename_i e' he'
    cases h
    exact Or.inr (Or.inr ⟨input.coinId, getCoinPriceOrThrow_error_inv he'⟩)
  · split at h
    · cases h
      exact Or.inl rfl
    · split at h
      · rename_i e' he'
        cases h
        exact Or.inr (Or.inr (computePortfolioMetrics_error_inv he'))
      · split at h
        · rcases buyFill_error_inv h with h1 | h2
          · exact Or.inr (Or.inl h1)
          · exact Or.inr (Or.inr h2)
        · exact Or.inr (Or.inr (sellFill_error_inv h))

theorem finishCommit_error_inv {s : EngineState} {prices : PriceMap} {input : CanonOrder}
    {now : Int} {ctx : FillCtx} {fc fb : ℚ} {fpos : List Position} {lt bk : Bool}
    {e : TradeErr}
    (h : finishCommit s prices input now ctx fc fb fpos lt bk = .error e) :
    ∃ c, e = .missingPrice c := by
  unfold finishCommit at h
  split at h
  · rename_i e' he'
    cases h
    exact computePortfolioMetrics_error_inv he'
  · cases h

theorem commitPhase_error_inv {st : EngineState} {prices : PriceMap} {input : CanonOrder}
    {now : Int} {ctx : FillCtx} {e : TradeErr}
    (h : commitPhase st prices input now ctx = .error e) :
    ∃ c, e = .missingPrice c := by
  unfold commitPhase at h
  split at h
  · split at h
    · rename_i e' he'
      cases h
      exact sumProceeds_error_inv he'
    · exact finishCommit_error_inv h
  · exact finishCommit_error_inv h

theorem ceilDivThousand_eq_ceil (a : Int) :
    ceilDivThousand a = ⌈(a : ℚ) / 1000⌉ := by
  unfold ceilDivThousand
  have h1 : (1000:ℤ) * ((a + 999).ediv 1000) + (a + 999).emod 1000 = a + 999 :=
    Int.ediv_add_emod _ _
  have h2 : 0 ≤ (a + 999).emod 1000 := Int.emod_nonneg _ (by norm_num)
  have h3 : (a + 999).emod 1000 < 1000 := Int.emod_lt_of_pos _ (by norm_num)
  have h1' : (1000:ℚ) * (((a + 999).ediv 1000 : ℤ) : ℚ) + (((a + 999).emod 1000 : ℤ) : ℚ)
      = (a : ℚ) + 999 := by exact_mod_cast h1
  have h2' : (0:ℚ) ≤ (((a + 999).emod 1000 : ℤ) : ℚ) := by exact_mod_cast h2
  have h3a : (a + 999).emod 1000 ≤ 999 := by omega
  have h3' : (((a + 999).emod 1000 : ℤ) : ℚ) ≤ 999 := by exact_mod_cast h3a
  symm
  rw [Int.ceil_eq_iff]
  constructor
  · rw [lt_div_iff₀ (by norm_num : (0:ℚ) < 1000)]
    linarith
  · rw [div_le_iff₀ (by norm_num : (0:ℚ) < 1000)]
    linarith

theorem executeTradeBody_cooldown_inv {st : EngineState} {prices : PriceMap}
    {input : CanonOrder} {now : Int} {w : Int}
    (h : executeTradeBody st prices input now = .error (.cooldownActive w)) :
    loadAndFill st prices input now = .error (.cooldownActive w) := by
  unfold executeTradeBody at h
  split at h
  · rename_i e' he'
    cases h
    exact he'
  · split at h
    · cases h
    · split at h
      · cases h
      · obtain ⟨c, hc⟩ := commitPhase_error_inv h
        cases hc

theorem loadAndFill_cooldown_active {st : EngineState} {prices : PriceMap}
    {input : CanonOrder} {now : Int} {agent : AgentRec} {t : Int}
    (ha : st.agent = some agent) (hbk : agent.bankrupt = false)
    (ht : latestTradeCreatedAt st.trades = some t)
    (hlt : now - t < TRADE_COOLDOWN_MS) :
    loadAndFill st prices input now =
      .error (.cooldownActive (ceilDivThousand (TRADE_COOLDOWN_MS - (now - t)))) := by
  unfold loadAndFill
  rw [ha]
  dsimp only
  rw [if_neg (by simp [hbk]), ht]
  dsimp only
  rw [if_pos hlt]

theorem loadAndFill_not_cooldown {st : EngineState} {prices : PriceMap}
    {input : CanonOrder} {now : Int} {agent : AgentRec}
    (ha : st.agent = some agent) (hbk : agent.bankrupt = false)
    (hpass : latestTradeCreatedAt st.trades = none ∨
      ∃ t, latestTradeCreatedAt st.trades = some t ∧ TRADE_COOLDOWN_MS ≤ now - t)
    (w : Int) : loadAndFill st prices input now ≠ .error (.cooldownActive w) := by
  intro h
  unfold loadAndFill at h
  split at h
  · cases h
  · rename_i agent' hagent'
    split at h
    · cases h
    · split at h
      · rename_i t ht
        split at h
        · rename_i hlt
          rcases hpass with hp | ⟨t', ht', hge⟩
          · rw [hp] at ht
            cases ht
          · rw [ht'] at ht
            injection ht with htt
            subst htt
            exact absurd hge (not_le.mpr hlt)
        · split at h
          · cases h
          · rcases fillPhase_error_inv h with h1 | h1 | ⟨c, h1⟩ <;> cases h1
      · split at h
        · cases h
        · rcases fillPhase_error_inv h with h1 | h1 | ⟨c, h1⟩ <;> cases h1

/-- C7: an order submitted less than 60 s after the account's latest trade
fails with the cooldown error carrying `waitSeconds =
⌈(60000 − elapsedMs)/1000⌉` (and the read-only gate reports the same); with
no prior trade, or 60 s or more elapsed, neither reports a cooldown. -/
theorem executeTrade_cooldown_gate (st : EngineState) (prices : PriceMap)
    (input : CanonOrder) (now : Int) (agent : AgentRec)
    (ha : st.agent = some agent) (hbk : agent.bankrupt = false) :
    (∀ t, latestTradeCreatedAt st.trades = some t → now - t < TRADE_COOLDOWN_MS →
      executeTrade st (some prices) input now =
        (st, .error (.cooldownActive ⌈((TRADE_COOLDOWN_MS - (now - t) : ℤ) : ℚ) / 1000⌉)) ∧
      isTradeCooldownActive st.trades now =
        (true, ⌈((TRADE_COOLDOWN_MS - (now - t) : ℤ) : ℚ) / 1000⌉)) ∧
    ((latestTradeCreatedAt st.trades = none ∨
        ∃ t, latestTradeCreatedAt st.trades = some t ∧ TRADE_COOLDOWN_MS ≤ now - t) →
      isTradeCooldownActive st.trades now = (false, 0) ∧
      ∀ w, (executeTrade st (some prices) input now).2 ≠ .error (.cooldownActive w)) := by
  constructor
  · intro t ht hlt
    have hlf := @loadAndFill_cooldown_active st prices input now agent t ha hbk ht hlt
    constructor
    · rw [← ceilDivThousand_eq_ceil]
      apply executeTrade_eq_of_body_error
      unfold executeTradeBody
      rw [hlf]
    · unfold isTradeCooldownActive
      rw [ht]
      dsimp only
      rw [if_neg (not_le.mpr hlt), ceilDivThousand_eq_ceil]
  · intro hpass
    constructor
    · unfold isTradeCooldownActive
      rcases hpass with hp | ⟨t, ht, hge⟩
      · rw [hp]
      · rw [ht]
        dsimp only
        rw [if_pos hge]
    · intro w hw
      simp only [executeTrade] at hw
      cases hb : executeTradeBody st prices input now with
      | ok v =>
          obtain ⟨s0, r0⟩ := v
          rw [hb] at hw
          simp [runTransaction] at hw
      | error e =>
          rw [hb] at hw
          simp [runTransaction] at hw
          subst hw
          exact loadAndFill_not_cooldown ha hbk hpass w (executeTradeBody_cooldown_inv hb)

/-- C7 witness: with a trade at `t = 0` and an order at `now = 30500` ms the
engine rejects with the cooldown error and the gate reports the rounded-up
remaining wait. -/
theorem executeTrade_cooldown_gate_witness :
    executeTrade ⟨some ⟨false, none⟩, some ⟨1000, 0⟩, [], [⟨"btc", Side.buy, 1, 1, 1, 0⟩], []⟩
        (some (fun s => if s = "btc" then some 2 else none))
        ⟨"btc", Side.buy, none, some 1⟩ 30500 =
      (⟨some ⟨false, none⟩, some ⟨1000, 0⟩, [], [⟨"btc", Side.buy, 1, 1, 1, 0⟩], []⟩,
        .error (.cooldownActive ⌈((TRADE_COOLDOWN_MS - (30500 - 0) : ℤ) : ℚ) / 1000⌉)) ∧
    isTradeCooldownActive [⟨"btc", Side.buy, 1, 1, 1, 0⟩] 30500 =
      (true, ⌈((TRADE_COOLDOWN_MS - (30500 - 0) : ℤ) : ℚ) / 1000⌉) :=
  (executeTrade_cooldown_gate _ _ _ _ ⟨false, none⟩ rfl rfl).1 0
    (by norm_num [latestTradeCreatedAt, List.foldl])
    (by norm_num [TRADE_COOLDOWN_MS])

theorem findPos_map_set (ps : List Position) (p : Position)
    (hany : ps.any (fun q => q.coinId = p.coinId) = true) :
    findPos (ps.map (fun q => if q.coinId = p.coinId then p else q)) p.coinId = some p := by
  induction ps with
  | nil => simp at hany
  | cons q rest ih =>
      simp only [List.map_cons]
      by_cases hq : q.coinId = p.coinId
      · rw [if_pos hq]
        simp [findPos, List.find?]
      · rw [if_neg hq]
        unfold findPos
        rw [List.find?_cons_of_neg _ (by simp [hq])]
        have hany' : rest.any (fun q => q.coinId = p.coinId) = true := by
          simp only [List.any_cons, Bool.or_eq_true] at hany
          rcases hany with h1 | h1
          · exact absurd (by simpa using h1) hq
          · exact h1
        exact ih hany'

theorem findPos_append_single (ps : List Position) (p : Position)
    (hnone : ps.any (fun q => q.coinId = p.coinId) = false) :
    findPos (ps ++ [p]) p.coinId = some p := by
  induction ps with
  | nil => simp [findPos, List.find?]
  | cons q rest ih =>
      simp only [List.any_cons, Bool.or_eq_false_iff] at hnone
      unfold findPos
      rw [List.cons_append, List.find?_cons_of_neg _ (by simpa using hnone.1)]
      exact ih hnone.2

theorem findPos_upsertPos (ps : List Position) (p : Position) :
    findPos (upsertPos ps p) p.coinId = some p := by
  unfold upsertPos
  split
  · rename_i hany
    exact findPos_map_set ps p hany
  · rename_i hany
    exact findPos_append_single ps p (by simpa using hany)

theorem findPos_removePos (ps : List Position) (c : String) :
    findPos (removePos ps c) c = none := by
  induction ps with
  | nil => rfl
  | cons q rest ih =>
      unfold removePos at *
      by_cases hq : q.coinId = c
      · rw [List.filter_cons_of_neg (by simp [hq])]
        exact ih
      · rw [List.filter_cons_of_pos (by simp [hq])]
        unfold findPos
        rw [List.find?_cons_of_neg _ (by simp [hq])]
        exact ih

theorem mem_upsertPos {ps : List Position} {p q : Position}
    (h : q ∈ upsertPos ps p) : q = p ∨ q ∈ ps := by
  unfold upsertPos at h
  split at h
  · obtain ⟨a, ha, hfa⟩ := List.mem_map.mp h
    by_cases hc : a.coinId = p.coinId
    · rw [if_pos hc] at hfa
      exact Or.inl hfa.symm
    · rw [if_neg hc] at hfa
      exact Or.inr (hfa ▸ ha)
  · rcases List.mem_append.mp h with h1 | h1
    · exact Or.inr h1
    · exact Or.inl (List.mem_singleton.mp h1)

theorem mem_removePos {ps : List Position} {c : String} {q : Position}
    (h : q ∈ removePos ps c) : q ∈ ps :=
  List.mem_of_mem_filter h

theorem applyBuy_extend {ps : List Position} {coinId : String} {orderQty priceUsd : ℚ}
    {ex : Position} (hfp : findPos ps coinId = some ex) (h0 : 0 < ex.qty)
    (hq : 0 < orderQty) :
    findPos (applyBuy ps coinId orderQty priceUsd) coinId =
      some ⟨coinId, ex.qty + orderQty,
        (ex.avgEntryUsd * |ex.qty| + priceUsd * orderQty) / |ex.qty + orderQty|⟩ := by
  unfold applyBuy
  rw [hfp]
  dsimp only [Option.map_some', Option.getD_some]
  rw [if_neg (by intro hcon; linarith), if_pos h0]
  exact findPos_upsertPos ps _

theorem applyBuy_reduce_short {ps : List Position} {coinId : String}
    {orderQty priceUsd : ℚ} {ex : Position} (hfp : findPos ps coinId = some ex)
    (h0 : ex.qty < 0) (hq : 0 < orderQty) (hnext : ex.qty + orderQty < 0) :
    findPos (applyBuy ps coinId orderQty priceUsd) coinId =
      some ⟨coinId, ex.qty + orderQty, ex.avgEntryUsd⟩ := by
  unfold applyBuy
  rw [hfp]
  dsimp only [Option.map_some', Option.getD_some]
  rw [if_neg (by intro hcon; linarith), if_neg (by linarith), if_pos h0, if_pos hnext]
  exact findPos_upsertPos ps _

theorem applyBuy_flip {ps : List Position} {coinId : String}
    {orderQty priceUsd : ℚ} {ex : Position} (hfp : findPos ps coinId = some ex)
    (h0 : ex.qty < 0) (hq : 0 < orderQty) (hnext : 0 < ex.qty + orderQty) :
    findPos (applyBuy ps coinId orderQty priceUsd) coinId =
      some ⟨coinId, ex.qty + orderQty, priceUsd⟩ := by
  unfold applyBuy
  rw [hfp]
  dsimp only [Option.map_some', Option.getD_some]
  rw [if_neg (by intro hcon; linarith), if_neg (by linarith), if_pos h0,
    if_neg (by linarith), if_pos hnext]
  exact findPos_upsertPos ps _

theorem applyBuy_close {ps : List Position} {coinId : String}
    {orderQty priceUsd : ℚ}
    (hnext : ((findPos ps coinId).map Position.qty).getD 0 + orderQty = 0) :
    findPos (applyBuy ps coinId orderQty priceUsd) coinId = none := by
  unfold applyBuy
  rw [if_pos hnext]
  exact findPos_removePos ps coinId

theorem applyBuy_flat {ps : List Position} {coinId : String} {orderQty priceUsd : ℚ}
    (h0 : ((findPos ps coinId).map Position.qty).getD 0 = 0) (hq : 0 < orderQty) :
    findPos (applyBuy ps coinId orderQty priceUsd) coinId =
      some ⟨coinId, orderQty, priceUsd⟩ := by
  cases hfp : findPos ps coinId with
  | none =>
      unfold applyBuy
      rw [hfp]
      dsimp only [Option.map_none', Option.getD_none]
      rw [if_neg (by intro hcon; linarith)]
      simp only [zero_add]
      exact findPos_upsertPos ps _
  | some ex =>
      rw [hfp] at h0
      dsimp only [Option.map_some', Option.getD_some] at h0
      unfold applyBuy
      rw [hfp]
      dsimp only [Option.map_some', Option.getD_some]
      rw [h0]
      rw [if_neg (by intro hcon; linarith), if_neg (lt_irrefl 0), if_neg (lt_irrefl 0)]
      simp only [zero_add]
      exact findPos_upsertPos ps _

theorem applySell_extend {ps : List Position} {coinId : String}
    {orderQty priceUsd : ℚ} {ex : Position} (hfp : findPos ps coinId = some ex)
    (h0 : ex.qty < 0) (hq : 0 < orderQty) :
    findPos (applySell ps coinId orderQty priceUsd) coinId =
      some ⟨coinId, ex.qty - orderQty,
        (ex.avgEntryUsd * |ex.qty| + priceUsd * orderQty) / |ex.qty - orderQty|⟩ := by
  unfold applySell
  rw [hfp]
  dsimp only [Option.map_some', Option.getD_some]
  rw [if_neg (by intro hcon; linarith), if_pos h0]
  exact findPos_upsertPos ps _

theorem applySell_reduce_long {ps : List Position} {coinId : String}
    {orderQty priceUsd : ℚ} {ex : Position} (hfp : findPos ps coinId = some ex)
    (h0 : 0 < ex.qty) (hq : 0 < orderQty) (hnext : 0 < ex.qty - orderQty) :
    findPos (applySell ps coinId orderQty priceUsd) coinId =
      some ⟨coinId, ex.qty - orderQty, ex.avgEntryUsd⟩ := by
  unfold applySell
  rw [hfp]
  dsimp only [Option.map_some', Option.getD_some]
  rw [if_neg (by intro hcon; linarith), if_neg (by linarith), if_pos h0, if_pos hnext]
  exact findPos_upsertPos ps _

theorem applySell_flip {ps : List Position} {coinId : String}
    {orderQty priceUsd : ℚ} {ex : Position} (hfp : findPos ps coinId = some ex)
    (h0 : 0 < ex.qty) (hq : 0 < orderQty) (hnext : ex.qty - orderQty < 0) :
    findPos (applySell ps coinId orderQty priceUsd) coinId =
      some ⟨coinId, ex.qty - orderQty, priceUsd⟩ := by
  unfold applySell
  rw [hfp]
  dsimp only [Option.map_some', Option.getD_some]
  rw [if_neg (by intro hcon; linarith), if_neg (by linarith), if_pos h0,
    if_neg (by linarith), if_pos hnext]
  exact findPos_upsertPos ps _

theorem applySell_close {ps : List Position} {coinId : String}
    {orderQty priceUsd : ℚ}
    (hnext : ((findPos ps coinId).map Position.qty).getD 0 - orderQty = 0) :
    findPos (applySell ps coinId orderQty priceUsd) coinId = none := by
  unfold applySell
  rw [if_pos hnext]
  exact findPos_removePos ps coinId

theorem applySell_flat {ps : List Position} {coinId : String} {orderQty priceUsd : ℚ}
    (h0 : ((findPos ps coinId).map Position.qty).getD 0 = 0) (hq : 0 < orderQty) :
    findPos (applySell ps coinId orderQty priceUsd) coinId =
      some ⟨coinId, -orderQty, priceUsd⟩ := by
  cases hfp : findPos ps coinId with
  | none =>
      unfold applySell
      rw [hfp]
      dsimp only [Option.map_none', Option.getD_none]
      rw [if_neg (by intro hcon; linarith)]
      simp only [zero_sub]
      exact findPos_upsertPos ps _
  | some ex =>
      rw [hfp] at h0
      dsimp only [Option.map_some', Option.getD_some] at h0
      unfold applySell
      rw [hfp]
      dsimp only [Option.map_some', Option.getD_some]
      rw [h0]
      rw [if_neg (by intro hcon; linarith), if_neg (lt_irrefl 0), if_neg (lt_irrefl 0)]
      simp only [zero_sub]
      exact findPos_upsertPos ps _

theorem applyBuy_no_zero {ps : List Position} {coinId : String}
    {orderQty priceUsd : ℚ} (hps : ∀ p ∈ ps, p.qty ≠ 0) :
    ∀ p ∈ applyBuy ps coinId orderQty priceUsd, p.qty ≠ 0 := by
  intro p hp
  unfold applyBuy at hp
  dsimp only at hp
  split at hp
  · exact hps p (mem_removePos hp)
  · rename_i hne
    rcases mem_upsertPos hp with h1 | h1
    · subst h1
      exact hne
    · exact hps p h1

theorem applySell_no_zero {ps : List Position} {coinId : String}
    {orderQty priceUsd : ℚ} (hps : ∀ p ∈ ps, p.qty ≠ 0) :
    ∀ p ∈ applySell ps coinId orderQty priceUsd, p.qty ≠ 0 := by
  intro p hp
  unfold applySell at hp
  dsimp only at hp
  split at hp
  · exact hps p (mem_removePos hp)
  · rename_i hne
    rcases mem_upsertPos hp with h1 | h1
    · subst h1
      exact hne
    · exact hps p h1

/-- C4: the fill's position update — extending a position in its direction
re-weights `avgEntryUsd` to the notional-weighted average of the old
position and the new fill; reducing keeps the old `avgEntryUsd`; flipping
through zero resets `avgEntryUsd` to the fill price; landing exactly on
zero removes the row; a flat book opens a new row at the fill price; and no
stored position ever has `qty = 0`. -/
theorem position_update_rule (ps : List Position) (coinId : String)
    (orderQty priceUsd : ℚ) (hq : 0 < orderQty) :
    (∀ ex, findPos ps coinId = some ex → 0 < ex.qty →
      findPos (applyBuy ps coinId orderQty priceUsd) coinId =
        some ⟨coinId, ex.qty + orderQty,
          (ex.avgEntryUsd * |ex.qty| + priceUsd * orderQty) / |ex.qty + orderQty|⟩) ∧
    (∀ ex, findPos ps coinId = some ex → ex.qty < 0 → ex.qty + orderQty < 0 →
      findPos (applyBuy ps coinId orderQty priceUsd) coinId =
        some ⟨coinId, ex.qty + orderQty, ex.avgEntryUsd⟩) ∧
    (∀ ex, findPos ps coinId = some ex → ex.qty < 0 → 0 < ex.qty + orderQty →
      findPos (applyBuy ps coinId orderQty priceUsd) coinId =
        some ⟨coinId, ex.qty + orderQty, priceUsd⟩) ∧
    (((findPos ps coinId).map Position.qty).getD 0 + orderQty = 0 →
      findPos (applyBuy ps coinId orderQty priceUsd) coinId = none) ∧
    (((findPos ps coinId).map Position.qty).getD 0 = 0 →
      findPos (applyBuy ps coinId orderQty priceUsd) coinId =
        some ⟨coinId, orderQty, priceUsd⟩) ∧
    (∀ ex, findPos ps coinId = some ex → ex.qty < 0 →
      findPos (applySell ps coinId orderQty priceUsd) coinId =
        some ⟨coinId, ex.qty - orderQty,
          (ex.avgEntryUsd * |ex.qty| + priceUsd * orderQty) / |ex.qty - orderQty|⟩) ∧
    (∀ ex, findPos ps coinId = some ex → 0 < ex.qty → 0 < ex.qty - orderQty →
      findPos (applySell ps coinId orderQty priceUsd) coinId =
        some ⟨coinId, ex.qty - orderQty, ex.avgEntryUsd⟩) ∧
    (∀ ex, findPos ps coinId = some ex → 0 < ex.qty → ex.qty - orderQty < 0 →
      findPos (applySell ps coinId orderQty priceUsd) coinId =
        some ⟨coinId, ex.qty - orderQty, priceUsd⟩) ∧
    (((findPos ps coinId).map Position.qty).getD 0 - orderQty = 0 →
      findPos (applySell ps coinId orderQty priceUsd) coinId = none) ∧
    (((findPos ps coinId).map Position.qty).getD 0 = 0 →
      findPos (applySell ps coinId orderQty priceUsd) coinId =
        some ⟨coinId, -orderQty, priceUsd⟩) ∧
    ((∀ p ∈ ps, p.qty ≠ 0) →
      (∀ p ∈ applyBuy ps coinId orderQty priceUsd, p.qty ≠ 0) ∧
      (∀ p ∈ applySell ps coinId orderQty priceUsd, p.qty ≠ 0)) := by
  refine ⟨?_, ?_, ?_, ?_, ?_, ?_, ?_, ?_, ?_, ?_, ?_⟩
  · intro ex hfp h0
    exact applyBuy_extend hfp h0 hq
  · intro ex hfp h0 hnext
    exact applyBuy_reduce_short hfp h0 hq hnext
  · intro ex hfp h0 hnext
    exact applyBuy_flip hfp h0 hq hnext
  · intro hnext
    exact applyBuy_close hnext
  · intro h0
    exact applyBuy_flat h0 hq
  · intro ex hfp h0
    exact applySell_extend hfp h0 hq
  · intro ex hfp h0 hnext
    exact applySell_reduce_long hfp h0 hq hnext
  · intro ex hfp h0 hnext
    exact applySell_flip hfp h0 hq hnext
  · intro hnext
    exact applySell_close hnext
  · intro h0
    exact applySell_flat h0 hq
  · intro hps
    exact ⟨applyBuy_no_zero hps, applySell_no_zero hps⟩

/-- C4 witness: buying 1 onto a long 2 @ 10 position at price 20 re-weights
the average entry to `(10·2 + 20·1)/3`. -/
theorem position_update_rule_witness :
    (0:ℚ) < 1 ∧ findPos [⟨"btc", 2, 10⟩] "btc" = some ⟨"btc", 2, 10⟩ ∧
    findPos (applyBuy [⟨"btc", 2, 10⟩] "btc" 1 20) "btc" =
      some ⟨"btc", (2:ℚ) + 1, ((10:ℚ) * |(2:ℚ)| + 20 * 1) / |(2:ℚ) + 1|⟩ :=
  ⟨by norm_num, by norm_num [findPos, List.find?],
    (position_update_rule [⟨"btc", 2, 10⟩] "btc" 1 20 (by norm_num)).1 ⟨"btc", 2, 10⟩
      (by norm_num [findPos, List.find?]) (by norm_num)⟩

/-- C3: after every successful `executeTrade` from a well-formed stored
portfolio (`borrowed ≥ 0`, and `borrowed > 0` only with `cash = 0`, as the
at-rest data model guarantees), the persisted portfolio satisfies the
borrow-sweep invariant: `cash > 0 ⇒ borrowed = 0` and `borrowed > 0 ⇒
cash = 0`. -/
theorem executeTrade_borrow_sweep_invariant (st : EngineState)
    (market : Option PriceMap) (input : CanonOrder) (now : Int)
    (s' : EngineState) (r : TradeResult) (p₀ : Portfolio)
    (hrun : executeTrade st market input now = (s', .ok r))
    (hp : st.portfolio = some p₀) (hb0 : 0 ≤ p₀.borrowedUsd)
    (hinv : 0 < p₀.borrowedUsd → p₀.cashUsd = 0) :
    ∃ p', s'.portfolio = some p' ∧
      (0 < p'.cashUsd → p'.borrowedUsd = 0) ∧
      (0 < p'.borrowedUsd → p'.cashUsd = 0) := by
  obtain ⟨prices, hm, hbody⟩ := executeTrade_ok_inv hrun
  obtain ⟨ctx, hlf, heq, hcap, hcommit⟩ := executeTradeBody_ok_inv hbody
  obtain ⟨agent, portfolio, ha, hbk, hag, hport, hfill⟩ := loadAndFill_ok_inv hlf
  rw [hp] at hport
  injection hport with hpeq
  subst hpeq
  obtain ⟨-, hpricem, hq, hno, hcm, hproj, hside⟩ := fillPhase_ok_inv hfill
  have hb1 : 0 ≤ (sweepBorrowedBalance p₀.cashUsd p₀.borrowedUsd).2 :=
    sweep_snd_nonneg _ _ hb0
  have hc1 : 0 < (sweepBorrowedBalance p₀.cashUsd p₀.borrowedUsd).2 →
      (sweepBorrowedBalance p₀.cashUsd p₀.borrowedUsd).1 = 0 :=
    sweep_snd_pos_fst_eq_zero _ _ hinv
  have hprice_pos : 0 < ctx.priceUsd := getCoinPriceOrThrow_ok_pos hpricem
  have hnot_pos : 0 < ctx.notionalUsd := by
    rw [hno]
    exact mul_pos hq hprice_pos
  have hmain : ∃ c2, (ctx.cashUsd, ctx.borrowedUsd) =
      sweepBorrowedBalance c2 (sweepBorrowedBalance p₀.cashUsd p₀.borrowedUsd).2 ∧
      (0 < (sweepBorrowedBalance p₀.cashUsd p₀.borrowedUsd).2 → 0 ≤ c2) := by
    rcases hside with ⟨hbuy, hcash, hpp, hsw⟩ | ⟨hsell, hpp, hsw⟩
    · refine ⟨_, hsw, ?_⟩
      intro h1
      exfalso
      rw [hc1 h1] at hcash
      exact hcash hnot_pos
    · refine ⟨_, hsw, ?_⟩
      intro h1
      rw [hc1 h1, zero_add]
      exact le_of_lt hnot_pos
  obtain ⟨c2, hsw, hc2⟩ := hmain
  have hcash_eq : ctx.cashUsd =
      (sweepBorrowedBalance c2 (sweepBorrowedBalance p₀.cashUsd p₀.borrowedUsd).2).1 :=
    congrArg Prod.fst hsw
  have hbor_eq : ctx.borrowedUsd =
      (sweepBorrowedBalance c2 (sweepBorrowedBalance p₀.cashUsd p₀.borrowedUsd).2).2 :=
    congrArg Prod.snd hsw
  have hswinv := sweep_invariant c2 (sweepBorrowedBalance p₀.cashUsd p₀.borrowedUsd).2 hb1 hc2
  have hb3 : 0 ≤ ctx.borrowedUsd := by
    rw [hbor_eq]
    exact sweep_snd_nonneg _ _ hb1
  rcases commitPhase_ok_inv hcommit with
    ⟨hnl, hsport, -, -, -, -, -, -⟩ |
    ⟨hl, mv, hmv, hsport, -, -, -, -, -, -⟩
  · refine ⟨⟨ctx.cashUsd, ctx.borrowedUsd⟩, hsport, ?_, ?_⟩
    · intro h
      rw [hbor_eq]
      apply hswinv.1
      rw [← hcash_eq]
      exact h
    · intro h
      rw [hcash_eq]
      apply hswinv.2
      rw [← hbor_eq]
      exact h
  · obtain ⟨mv', pn', u', hsum, hpe, -, -, -, -⟩ := computePortfolioMetrics_ok_inv hproj
    have hmv' := sumProceeds_of_sumPositionMetrics hsum
    rw [hmv] at hmv'
    injection hmv' with hmveq
    subst hmveq
    have hfc : 0 ≤ ctx.cashUsd + mv := by
      rw [hpe] at heq
      linarith
    have hswinv2 := sweep_invariant (ctx.cashUsd + mv) ctx.borrowedUsd hb3 (fun _ => hfc)
    exact ⟨_, hsport, hswinv2.1, hswinv2.2⟩

/-- C3 witness: the spec's scenario — a flat account with cash 10000 buys
$5000 of an asset priced 100; the persisted portfolio `(5000, 0)` satisfies
the invariant. -/
theorem executeTrade_borrow_sweep_invariant_witness :
    ∃ p', (⟨some ⟨false, some 0⟩, some ⟨5000, 0⟩, [⟨"bitcoin", 50, 100⟩],
        [⟨"bitcoin", Side.buy, 50, 100, 5000, 0⟩],
        [Activity.trade "bitcoin" Side.buy 50 100 5000]⟩ : EngineState).portfolio
        = some p' ∧
      (0 < p'.cashUsd → p'.borrowedUsd = 0) ∧
      (0 < p'.borrowedUsd → p'.cashUsd = 0) :=
  executeTrade_borrow_sweep_invariant
    ⟨some ⟨false, none⟩, some ⟨10000, 0⟩, [], [], []⟩
    (some (fun s => if s = "bitcoin" then some 100 else none))
    ⟨"bitcoin", Side.buy, some 5000, none⟩ 0
    ⟨some ⟨false, some 0⟩, some ⟨5000, 0⟩, [⟨"bitcoin", 50, 100⟩],
      [⟨"bitcoin", Side.buy, 50, 100, 5000, 0⟩],
      [Activity.trade "bitcoin" Side.buy 50 100 5000]⟩
    ⟨"bitcoin", Side.buy, 50, 100, 5000, 5000, 0, 10000, 0, 5000, some 2, false, false⟩
    ⟨10000, 0⟩
    (by norm_num [executeTrade, runTransaction, executeTradeBody, loadAndFill, fillPhase,
      buyFill, commitPhase, finishCommit, afterPersist, maintenanceRatioBelow,
      getCoinPriceOrThrow, resolveOrderQty, sweepBorrowedBalance, computePortfolioMetrics,
      sumPositionMetrics, sumProceeds, applyBuy, findPos, upsertPos, removePos,
      latestTradeCreatedAt, List.find?, List.foldl, MAX_GROSS_EXPOSURE, MAINTENANCE_MARGIN,
      TRADE_COOLDOWN_MS])
    rfl (by norm_num) (by norm_num)

/-- C8 counterexample: the claim "validateTradeRequest succeeds only if the
single size field is a finite number > 0" is false: a request whose
`usdNotional` is `NaN` passes validation (JS `typeof NaN === "number"` makes
the field present and `NaN <= 0` is false, so the positivity guard does not
fire). -/
theorem validateTradeRequest_claim_counterexample :
    ¬ ∀ b : TradeRequest, (∃ o, validateTradeRequest b = .ok o) →
      (match b.usdNotional, b.qty with
       | some v, none => v.isFinite = true ∧ v.gtZero = true
       | none, some v => v.isFinite = true ∧ v.gtZero = true
       | _, _ => False) := by
  intro h
  have hc := h ⟨some "bitcoin", some "BUY", some .nan, none⟩
    ⟨⟨"bitcoin", Side.buy, none, none⟩, rfl⟩
  simp [JsNum.isFinite] at hc

/-- C8 (amended): `validateTradeRequest` succeeds iff the trimmed coin id
is a supported coin, the side is `"BUY"` or `"SELL"`, and exactly one of
`usdNotional` / `qty` is present with its value not `≤ 0` under the JS
comparison — so `NaN` and `+Infinity` values are accepted (finiteness is
not checked); providing both, neither, or a non-positive finite value is
rejected. -/
theorem validateTradeRequest_ok_iff (b : TradeRequest) :
    (∃ o, validateTradeRequest b = .ok o) ↔
      ((b.coinId.map jsTrim).getD "" ≠ "" ∧
        SUPPORTED_COINS.contains ((b.coinId.map jsTrim).getD "") = true) ∧
      (b.side = some "BUY" ∨ b.side = some "SELL") ∧
      (match b.usdNotional, b.qty with
       | some v, none => v.leZero = false
       | none, some v => v.leZero = false
       | _, _ => False) := by
  unfold validateTradeRequest
  dsimp only
  split_ifs with h1 h2 h3 h4 h5 h6
  · constructor
    · rintro ⟨o, ho⟩
      cases ho
    · rintro ⟨⟨hne, hcont⟩, -, -⟩
      rcases h1 with h1 | h1
      · exact (hne h1).elim
      · exact (h1 hcont).elim
  · constructor
    · rintro ⟨o, ho⟩
      cases ho
    · rintro ⟨-, hside, -⟩
      rcases hside with hs | hs
      · exact (h2.1 hs).elim
      · exact (h2.2 hs).elim
  · constructor
    · rintro ⟨o, ho⟩
      cases ho
    · rintro ⟨-, -, hm⟩
      revert hm h3
      cases b.usdNotional <;> cases b.qty <;> simp
  · constructor
    · rintro ⟨o, ho⟩
      cases ho
    · rintro ⟨-, -, hm⟩
      obtain ⟨hu, hz⟩ := h4
      revert hm
      cases hub : b.usdNotional <;> cases hqb : b.qty <;> simp_all
  · constructor
    · rintro ⟨o, ho⟩
      cases ho
    · rintro ⟨-, -, hm⟩
      obtain ⟨hu, hz⟩ := h5
      revert hm
      cases hub : b.usdNotional <;> cases hqb : b.qty <;> simp_all
  · push_neg at h1
    constructor
    · rintro -
      refine ⟨⟨h1.1, h1.2⟩, Or.inl h6, ?_⟩
      cases hub : b.usdNotional <;> cases hqb : b.qty <;> simp_all
    · rintro -
      exact ⟨_, rfl⟩
  · push_neg at h1 h2
    constructor
    · rintro -
      refine ⟨⟨h1.1, h1.2⟩, Or.inr (h2 h6), ?_⟩
      cases hub : b.usdNotional <;> cases hqb : b.qty <;> simp_all
    · rintro -
      exact ⟨_, rfl⟩

theorem getCoinPriceOrThrow_of_some {coin : String} {pm : PriceMap} {P : ℚ}
    (hpm : pm coin = some P) (hP : 0 < P) :
    getCoinPriceOrThrow coin pm = .ok P := by
  unfold getCoinPriceOrThrow
  rw [hpm]
  dsimp only
  rw [if_pos hP]

theorem computePortfolioMetrics_single {coin : String} {pm : PriceMap} {P : ℚ}
    (cb bb q a : ℚ) (hpm : pm coin = some P) (hP : 0 < P) :
    computePortfolioMetrics cb bb [⟨coin, q, a⟩] pm =
      .ok ⟨cb - bb + q * P, q * P, |q| * P, (P - a) * q,
        if 0 < |q| * P then some ((cb - bb + q * P) / (|q| * P)) else none⟩ := by
  unfold computePortfolioMetrics sumPositionMetrics
  rw [getCoinPriceOrThrow_of_some hpm hP]
  norm_num [sumPositionMetrics]

theorem applyBuy_nil (coin : String) (Q P : ℚ) (hQ : 0 < Q) :
    applyBuy [] coin Q P = [⟨coin, Q, P⟩] := by
  unfold applyBuy
  dsimp only [findPos, List.find?, Option.map_none', Option.getD_none]
  rw [if_neg (by intro hcon; linarith)]
  simp [upsertPos]

theorem applySell_single_close (coin : String) (Q A P : ℚ) :
    applySell [⟨coin, Q, A⟩] coin Q P = [] := by
  unfold applySell
  have hfp : findPos [(⟨coin, Q, A⟩ : Position)] coin = some ⟨coin, Q, A⟩ := by
    simp [findPos, List.find?]
  rw [hfp]
  dsimp only [Option.map_some', Option.getD_some]
  rw [if_pos (by ring)]
  simp [removePos]

/-- C9 counterexample: with a pre-existing long position of 1 in the same
asset, BUY 1 then SELL 1 at the same price both succeed and cash returns to
its pre-trade value, but the position row for the asset is NOT removed —
the original row remains. -/
theorem executeTrade_round_trip_counterexample :
    (∃ r1, executeTrade ⟨some ⟨false, none⟩, some ⟨1000, 0⟩, [⟨"btc", 1, 100⟩], [], []⟩
        (some (fun s => if s = "btc" then some 100 else none))
        ⟨"btc", Side.buy, none, some 1⟩ 0 =
      (⟨some ⟨false, some 0⟩, some ⟨900, 0⟩, [⟨"btc", 2, 100⟩],
        [⟨"btc", Side.buy, 1, 100, 100, 0⟩],
        [Activity.trade "btc" Side.buy 1 100 100]⟩, .ok r1)) ∧
    (∃ r2, executeTrade
        ⟨some ⟨false, some 0⟩, some ⟨900, 0⟩, [⟨"btc", 2, 100⟩],
          [⟨"btc", Side.buy, 1, 100, 100, 0⟩],
          [Activity.trade "btc" Side.buy 1 100 100]⟩
        (some (fun s => if s = "btc" then some 100 else none))
        ⟨"btc", Side.sell, none, some 1⟩ 100000 =
      (⟨some ⟨false, some 100000⟩, some ⟨1000, 0⟩, [⟨"btc", 1, 100⟩],
        [⟨"btc", Side.buy, 1, 100, 100, 0⟩, ⟨"btc", Side.sell, 1, 100, 100, 100000⟩],
        [Activity.trade "btc" Side.buy 1 100 100,
         Activity.trade "btc" Side.sell 1 100 100]⟩, .ok r2)) ∧
    findPos [(⟨"btc", 1, 100⟩ : Position)] "btc" = some ⟨"btc", 1, 100⟩ := by
  refine ⟨⟨⟨"btc", Side.buy, 1, 100, 100, 900, 0, 1100, 0, 200, some (11/2), false, false⟩,
      ?_⟩,
    ⟨⟨"btc", Side.sell, 1, 100, 100, 1000, 0, 1100, 0, 100, some 11, false, false⟩, ?_⟩,
    ?_⟩
  · norm_num [executeTrade, runTransaction, executeTradeBody, loadAndFill, fillPhase,
      buyFill, sellFill, commitPhase, finishCommit, afterPersist, maintenanceRatioBelow,
      getCoinPriceOrThrow, resolveOrderQty, sweepBorrowedBalance, computePortfolioMetrics,
      sumPositionMetrics, sumProceeds, applyBuy, applySell, findPos, upsertPos, removePos,
      latestTradeCreatedAt, List.find?, List.foldl, MAX_GROSS_EXPOSURE, MAINTENANCE_MARGIN,
      TRADE_COOLDOWN_MS]
  · norm_num [executeTrade, runTransaction, executeTradeBody, loadAndFill, fillPhase,
      buyFill, sellFill, commitPhase, finishCommit, afterPersist, maintenanceRatioBelow,
      getCoinPriceOrThrow, resolveOrderQty, sweepBorrowedBalance, computePortfolioMetrics,
      sumPositionMetrics, sumProceeds, applyBuy, applySell, findPos, upsertPos, removePos,
      latestTradeCreatedAt, List.find?, List.foldl, MAX_GROSS_EXPOSURE, MAINTENANCE_MARGIN,
      TRADE_COOLDOWN_MS]
  · norm_num [findPos, List.find?]

theorem executeTrade_buy_flat (c Q P : ℚ) (now1 : Int) (coin : String) (pm : PriceMap)
    (hpm : pm coin = some P) (hP : 0 < P) (hQ : 0 < Q) (hc : Q * P ≤ c) :
    ∃ r1, executeTrade ⟨some ⟨false, none⟩, some ⟨c, 0⟩, [], [], []⟩ (some pm)
        ⟨coin, Side.buy, none, some Q⟩ now1 =
      (⟨some ⟨false, some now1⟩, some ⟨c - Q * P, 0⟩, [⟨coin, Q, P⟩],
        [⟨coin, Side.buy, Q, P, Q * P, now1⟩],
        [Activity.trade coin Side.buy Q P (Q * P)]⟩, .ok r1) := by
  have hqp : (0:ℚ) < Q * P := mul_pos hQ hP
  have hpn : (0:ℚ) < |Q| * P := by rw [abs_of_pos hQ]; exact hqp
  have hsw0 : sweepBorrowedBalance c 0 = (c, 0) := sweep_of_nonpos_borrowed c 0 le_rfl
  have hsw1 : sweepBorrowedBalance (c - Q * P) 0 = (c - Q * P, 0) :=
    sweep_of_nonpos_borrowed _ 0 le_rfl
  have hcur : computePortfolioMetrics c 0 [] pm = .ok ⟨c - 0 + 0, 0, 0, 0, none⟩ :=
    computePortfolioMetrics_nil c 0 pm
  have happ : applyBuy [] coin Q P = [⟨coin, Q, P⟩] := applyBuy_nil coin Q P hQ
  have hproj : computePortfolioMetrics (c - Q * P) 0 [⟨coin, Q, P⟩] pm =
      .ok ⟨c - Q * P - 0 + Q * P, Q * P, |Q| * P, (P - P) * Q,
        some ((c - Q * P - 0 + Q * P) / (|Q| * P))⟩ := by
    rw [computePortfolioMetrics_single (c - Q * P) 0 Q P hpm hP, if_pos hpn]
  have hfill : fillPhase ⟨some ⟨false, none⟩, some ⟨c, 0⟩, [], [], []⟩ pm
      ⟨coin, Side.buy, none, some Q⟩ ⟨false, none⟩ ⟨c, 0⟩ =
      .ok ⟨⟨false, none⟩, P, Q, Q * P, c - Q * P, 0, [⟨coin, Q, P⟩],
        ⟨c - 0 + 0, 0, 0, 0, none⟩,
        ⟨c - Q * P - 0 + Q * P, Q * P, |Q| * P, (P - P) * Q,
          some ((c - Q * P - 0 + Q * P) / (|Q| * P))⟩⟩ := by
    simp only [fillPhase, buyFill, resolveOrderQty, getCoinPriceOrThrow_of_some hpm hP,
      hsw0, hcur, hsw1, happ, hproj, hQ, not_true, not_lt.mpr hc, if_false, ite_false,
      not_false_iff, if_true, ite_true]
  have hlf : loadAndFill ⟨some ⟨false, none⟩, some ⟨c, 0⟩, [], [], []⟩ pm
      ⟨coin, Side.buy, none, some Q⟩ now1 =
      .ok ⟨⟨false, none⟩, P, Q, Q * P, c - Q * P, 0, [⟨coin, Q, P⟩],
        ⟨c - 0 + 0, 0, 0, 0, none⟩,
        ⟨c - Q * P - 0 + Q * P, Q * P, |Q| * P, (P - P) * Q,
          some ((c - Q * P - 0 + Q * P) / (|Q| * P))⟩⟩ := by
    simp only [loadAndFill, latestTradeCreatedAt, List.foldl]
    exact hfill
  have heq1 : (0:ℚ) < c - Q * P - 0 + Q * P := by linarith
  have hratio : ¬ ((c - Q * P - 0 + Q * P) / (|Q| * P) < MAINTENANCE_MARGIN) := by
    rw [abs_of_pos hQ]
    have h1 : (1:ℚ) ≤ c / (Q * P) := (one_le_div hqp).mpr hc
    have h2 : c - Q * P - 0 + Q * P = c := by ring
    rw [h2, MAINTENANCE_MARGIN]
    linarith
  refine ⟨⟨coin, Side.buy, Q, P, Q * P, c - Q * P, 0, c - Q * P - 0 + Q * P,
    (P - P) * Q, |Q| * P, some ((c - Q * P - 0 + Q * P) / (|Q| * P)), false, false⟩, ?_⟩
  apply executeTrade_eq_of_body
  rw [executeTradeBody_ok_of hlf heq1
    (by rintro ⟨h1, -⟩
        rw [MAX_GROSS_EXPOSURE, mul_one, abs_of_pos hQ] at h1
        linarith)]
  unfold commitPhase
  rw [if_neg (by rintro ⟨-, hb⟩
                 rw [maintenanceRatioBelow] at hb
                 exact hratio (of_decide_eq_true hb))]
  rw [finishCommit_ok_of hproj]
  simp [afterPersist]

theorem executeTrade_sell_close (c' Q A P : ℚ) (tPrev now2 : Int) (la : Option Int)
    (coin : String) (pm : PriceMap) (trades : List Trade) (acts : List Activity)
    (hpm : pm coin = some P) (hP : 0 < P) (hQ : 0 < Q)
    (hlatest : latestTradeCreatedAt trades = some tPrev)
    (hcool : TRADE_COOLDOWN_MS ≤ now2 - tPrev)
    (hsolv : 0 < c' + Q * P) :
    ∃ r2, executeTrade ⟨some ⟨false, la⟩, some ⟨c', 0⟩, [⟨coin, Q, A⟩], trades, acts⟩
        (some pm) ⟨coin, Side.sell, none, some Q⟩ now2 =
      (⟨some ⟨false, some now2⟩, some ⟨c' + Q * P, 0⟩, [],
        trades ++ [⟨coin, Side.sell, Q, P, Q * P, now2⟩],
        acts ++ [Activity.trade coin Side.sell Q P (Q * P)]⟩, .ok r2) := by
  have hqp : (0:ℚ) < Q * P := mul_pos hQ hP
  have hpn : (0:ℚ) < |Q| * P := by rw [abs_of_pos hQ]; exact hqp
  have hsw0 : sweepBorrowedBalance c' 0 = (c', 0) := sweep_of_nonpos_borrowed c' 0 le_rfl
  have hsw1 : sweepBorrowedBalance (c' + Q * P) 0 = (c' + Q * P, 0) :=
    sweep_of_nonpos_borrowed _ 0 le_rfl
  have hcur : computePortfolioMetrics c' 0 [⟨coin, Q, A⟩] pm =
      .ok ⟨c' - 0 + Q * P, Q * P, |Q| * P, (P - A) * Q,
        some ((c' - 0 + Q * P) / (|Q| * P))⟩ := by
    rw [computePortfolioMetrics_single c' 0 Q A hpm hP, if_pos hpn]
  have happ : applySell [⟨coin, Q, A⟩] coin Q P = [] := applySell_single_close coin Q A P
  have hproj : computePortfolioMetrics (c' + Q * P) 0 [] pm =
      .ok ⟨c' + Q * P - 0 + 0, 0, 0, 0, none⟩ := computePortfolioMetrics_nil _ 0 pm
  have hfill2 : fillPhase ⟨some ⟨false, la⟩, some ⟨c', 0⟩, [⟨coin, Q, A⟩], trades, acts⟩
      pm ⟨coin, Side.sell, none, some Q⟩ ⟨false, la⟩ ⟨c', 0⟩ =
      .ok ⟨⟨false, la⟩, P, Q, Q * P, c' + Q * P, 0, [],
        ⟨c' - 0 + Q * P, Q * P, |Q| * P, (P - A) * Q,
          some ((c' - 0 + Q * P) / (|Q| * P))⟩,
        ⟨c' + Q * P - 0 + 0, 0, 0, 0, none⟩⟩ := by
    simp only [fillPhase, sellFill, resolveOrderQty, getCoinPriceOrThrow_of_some hpm hP,
      hsw0, hcur, hsw1, happ, hproj, hQ, not_true, if_false, ite_false, not_false_iff,
      if_true, ite_true]
  have hlf2 : loadAndFill ⟨some ⟨false, la⟩, some ⟨c', 0⟩, [⟨coin, Q, A⟩], trades, acts⟩
      pm ⟨coin, Side.sell, none, some Q⟩ now2 =
      .ok ⟨⟨false, la⟩, P, Q, Q * P, c' + Q * P, 0, [],
        ⟨c' - 0 + Q * P, Q * P, |Q| * P, (P - A) * Q,
          some ((c' - 0 + Q * P) / (|Q| * P))⟩,
        ⟨c' + Q * P - 0 + 0, 0, 0, 0, none⟩⟩ := by
    simp only [loadAndFill, hlatest, not_lt.mpr hcool, if_false, ite_false]
    exact hfill2
  have heq2 : (0:ℚ) < c' + Q * P - 0 + 0 := by linarith
  refine ⟨⟨coin, Side.sell, Q, P, Q * P, c' + Q * P, 0, c' + Q * P - 0 + 0,
    0, 0, none, false, false⟩, ?_⟩
  apply executeTrade_eq_of_body
  rw [executeTradeBody_ok_of hlf2 heq2
    (by rintro ⟨h1, -⟩
        rw [MAX_GROSS_EXPOSURE, mul_one] at h1
        linarith)]
  unfold commitPhase
  rw [if_neg (by rintro ⟨hpn0, -⟩
                 exact lt_irrefl (0:ℚ) hpn0)]
  rw [finishCommit_ok_of hproj]
  simp [afterPersist]

/-- C9 (amended): for an account with no open positions and no debt, a
successful BUY of `qty = Q` at price `P` followed (after the cooldown) by a
SELL of `qty = Q` at the same price returns cash to its pre-trade value and
leaves no position row. -/
theorem executeTrade_round_trip (c Q P : ℚ) (now1 now2 : Int) (coin : String)
    (pm : PriceMap) (hpm : pm coin = some P) (hP : 0 < P) (hQ : 0 < Q)
    (hc : Q * P ≤ c) (hcool : TRADE_COOLDOWN_MS ≤ now2 - now1) :
    ∃ st1 r1 st2 r2,
      executeTrade ⟨some ⟨false, none⟩, some ⟨c, 0⟩, [], [], []⟩ (some pm)
        ⟨coin, Side.buy, none, some Q⟩ now1 = (st1, .ok r1) ∧
      executeTrade st1 (some pm) ⟨coin, Side.sell, none, some Q⟩ now2 = (st2, .ok r2) ∧
      st2.portfolio = some ⟨c, 0⟩ ∧ st2.positions = [] := by
  obtain ⟨r1, h1⟩ := executeTrade_buy_flat c Q P now1 coin pm hpm hP hQ hc
  have hlatest : latestTradeCreatedAt [⟨coin, Side.buy, Q, P, Q * P, now1⟩] = some now1 := by
    simp [latestTradeCreatedAt, List.foldl]
  have hsolv : (0:ℚ) < c - Q * P + Q * P := by
    have := mul_pos hQ hP
    linarith
  obtain ⟨r2, h2⟩ := executeTrade_sell_close (c - Q * P) Q P P now1 now2 (some now1)
    coin pm [⟨coin, Side.buy, Q, P, Q * P, now1⟩]
    [Activity.trade coin Side.buy Q P (Q * P)] hpm hP hQ hlatest hcool hsolv
  have hback : c - Q * P + Q * P = c := by ring
  rw [hback] at h2
  exact ⟨_, r1, _, r2, h1, h2, rfl, rfl⟩

/-- C9 witness: cash 1000, BUY 5 @ 10 at `t = 0`, SELL 5 @ 10 at
`t = 60000`; cash returns to 1000 and no position row remains. -/
theorem executeTrade_round_trip_witness :
    ∃ st1 r1 st2 r2,
      executeTrade ⟨some ⟨false, none⟩, some ⟨1000, 0⟩, [], [], []⟩
        (some (fun s => if s = "btc" then some 10 else none))
        ⟨"btc", Side.buy, none, some 5⟩ 0 = (st1, .ok r1) ∧
      executeTrade st1 (some (fun s => if s = "btc" then some 10 else none))
        ⟨"btc", Side.sell, none, some 5⟩ 60000 = (st2, .ok r2) ∧
      st2.portfolio = some ⟨1000, 0⟩ ∧ st2.positions = [] :=
  executeTrade_round_trip 1000 5 10 0 60000 "btc"
    (fun s => if s = "btc" then some 10 else none) rfl (by norm_num) (by norm_num)
    (by norm_num) (by norm_num [TRADE_COOLDOWN_MS])
